import Mathlib

/-!
Southwest check-in bot: a shallow embedding.

The development follows the Go sources

* `internal/models/models.go`   (the records exchanged with the remote service),
* `internal/checkin/checkin.go` (the protocol client and its retrying transport),
* `internal/scheduler/scheduler.go` (the deadline scheduler).

Go strings are modelled by `String` (text, i.e. well-formed UTF-8), Go slices by
`List` (by `Slice`, a list with what its backing array holds past it, while
`encoding/json` fills them), Go `int`/`int64` by `Int` with explicit wrap-around
where it matters.

Of the Go standard library, `encoding/json`, `strings.Fields`, `http.Header.Set`
and the checks of `http.NewRequest` on the method are spelled out. The parsing
and printing of URLs (`net/url`) and `strings.ToUpper` are a parameter `GoLib` of
the client: the theorems hold for every library with the properties listed
there, and the concrete runs are evaluated with `plainGo` on plain input.
-/

namespace SouthwestBot

/-! ## internal/models/models.go -/

/-- Go: `models.BoardingPass`. -/
structure BoardingPass where
  FirstName : String
  LastName : String
  BoardingGroup : String
  BoardingPosition : String
  FlightNumber : String
  DepartureAirport : String
  ArrivalAirport : String
  DepartureTime : String
deriving DecidableEq

/-- Go: `models.ConfirmationPassenger`. -/
structure ConfirmationPassenger where
  Name : String
  BoardingGroup : String
  BoardingPosition : String
deriving DecidableEq

/-- Go: `models.ConfirmationFlight`. -/
structure ConfirmationFlight where
  FlightNumber : String
  OriginAirportCode : String
  DestinationAirportCode : String
  DepartureTime : String
  Passengers : List ConfirmationPassenger
deriving DecidableEq

/-- Go: `models.CheckInConfirmationPage`. -/
structure CheckInConfirmationPage where
  Flights : List ConfirmationFlight
deriving DecidableEq

/-- Go: `models.CheckInConfirmationResponse`. -/
structure CheckInConfirmationResponse where
  CheckInConfirmationPage : CheckInConfirmationPage
deriving DecidableEq

/-- Go: `models.Reservation`; the departure instant in nanoseconds. -/
structure Reservation where
  ConfirmationNumber : String
  FirstName : String
  LastName : String
  DepartureTime : Int
deriving DecidableEq

/-- Go: `models.CheckInRequestBody`. -/
structure CheckInRequestBody where
  FirstName : String
  LastName : String
  RecordLocator : String
deriving DecidableEq

/-- Go: `models.CheckInLink`. -/
structure CheckInLink where
  Href : String
  Method : String
  Body : CheckInRequestBody
deriving DecidableEq

/-- Go: `models.CheckInLinks`. -/
structure CheckInLinks where
  CheckIn : CheckInLink
deriving DecidableEq

/-- Go: `models.ReservationFlight`. -/
structure ReservationFlight where
  FlightNumber : String
  DepartureTime : String
  OriginAirport : String
  DestinationAirport : String
deriving DecidableEq

/-- Go: `models.CheckInViewReservationPage`. -/
structure CheckInViewReservationPage where
  PNR : String
  Flights : List ReservationFlight
  Links : CheckInLinks
deriving DecidableEq

/-- Go: `models.ReservationLookupResponse`. -/
structure ReservationLookupResponse where
  CheckInViewReservationPage : CheckInViewReservationPage
deriving DecidableEq

/-- The zero value of `models.ReservationLookupResponse`. -/
def ReservationLookupResponse.zero : ReservationLookupResponse :=
  { CheckInViewReservationPage :=
      { PNR := "", Flights := []
        Links := { CheckIn := { Href := "", Method := ""
                                Body := { FirstName := "", LastName := "", RecordLocator := "" } } } } }

/-! ## Name splitting (`extractFirstName`, `extractLastName`) -/

/-- Go standard library `unicode.IsSpace`: the Latin-1 spaces
`\t \n \v \f \r`, space, U+0085, U+00A0, and the code points of category Z. -/
def isSpace (c : Char) : Bool :=
  let n := c.toNat
  (9 ≤ n && n ≤ 13) || n == 32 || n == 0x85 || n == 0xA0 || n == 0x1680 ||
  (0x2000 ≤ n && n ≤ 0x200a) || n == 0x2028 || n == 0x2029 || n == 0x202f ||
  n == 0x205f || n == 0x3000

/-- The scanning loop of Go's `strings.FieldsFunc`: `start` is the field being
read (Go keeps its start index, `start >= 0`), `spans` the fields closed so far.
A separator closes the open field; any other character opens or extends one;
at the end of the input an open field is closed. -/
def fieldsLoop : List Char → Option (List Char) → List (List Char) → List (List Char)
  | [], none, spans => spans
  | [], some cur, spans => spans ++ [cur]
  | c :: cs, start, spans =>
    if isSpace c then
      match start with
      | some cur => fieldsLoop cs none (spans ++ [cur])
      | none => fieldsLoop cs none spans
    else
      match start with
      | some cur => fieldsLoop cs (some (cur ++ [c])) spans
      | none => fieldsLoop cs (some [c]) spans

/-- Go standard library `strings.Fields`. -/
def Fields (s : String) : List String :=
  (fieldsLoop s.toList none []).map String.mk

/-- Go: `extractFirstName`. -/
def extractFirstName (fullName : String) : String :=
  let parts := Fields fullName
  if parts.length > 0 then parts.headD "" else fullName

/-- Go: `extractLastName`. -/
def extractLastName (fullName : String) : String :=
  let parts := Fields fullName
  if parts.length > 1 then parts.getD (parts.length - 1) "" else ""

/-- The whitespace-delimited tokens of a string, as the specification words
them: cut the text at every whitespace character and keep the non-empty
pieces. -/
def tokens (s : String) : List String :=
  ((s.toList.splitOnP isSpace).filter (fun t => !t.isEmpty)).map String.mk

/-! ## Projection of the confirmation (`extractBoardingPasses`) -/

/-- The record built in the inner loop body of `extractBoardingPasses`. -/
def mkPass (flight : ConfirmationFlight) (passenger : ConfirmationPassenger) : BoardingPass :=
  { FirstName := extractFirstName passenger.Name
    LastName := extractLastName passenger.Name
    BoardingGroup := passenger.BoardingGroup
    BoardingPosition := passenger.BoardingPosition
    FlightNumber := flight.FlightNumber
    DepartureAirport := flight.OriginAirportCode
    ArrivalAirport := flight.DestinationAirportCode
    DepartureTime := flight.DepartureTime }

/-- Go: `(*Client).extractBoardingPasses`. The two nested `for ... range` loops
append to the accumulator `passes`, which starts as the nil slice. -/
def extractBoardingPasses (confirm : CheckInConfirmationResponse) : List BoardingPass :=
  confirm.CheckInConfirmationPage.Flights.foldl
    (fun passes flight =>
      flight.Passengers.foldl (fun passes passenger => passes ++ [mkPass flight passenger]) passes)
    []

/-- The flight data and boarding slot a record carries. -/
structure PassView where
  FlightNumber : String
  DepartureAirport : String
  ArrivalAirport : String
  DepartureTime : String
  BoardingGroup : String
  BoardingPosition : String
deriving DecidableEq

/-- The view of a boarding pass. -/
def BoardingPass.view (p : BoardingPass) : PassView :=
  { FlightNumber := p.FlightNumber
    DepartureAirport := p.DepartureAirport
    ArrivalAirport := p.ArrivalAirport
    DepartureTime := p.DepartureTime
    BoardingGroup := p.BoardingGroup
    BoardingPosition := p.BoardingPosition }

/-- What the specification expects of the projection: flights in response
order, within a flight its passengers in response order, each passenger paired
with the data of its own flight. -/
def expectedViews (confirm : CheckInConfirmationResponse) : List PassView :=
  confirm.CheckInConfirmationPage.Flights.flatMap fun flight =>
    flight.Passengers.map fun passenger =>
      { FlightNumber := flight.FlightNumber
        DepartureAirport := flight.OriginAirportCode
        ArrivalAirport := flight.DestinationAirportCode
        DepartureTime := flight.DepartureTime
        BoardingGroup := passenger.BoardingGroup
        BoardingPosition := passenger.BoardingPosition }

/-! ## internal/scheduler/scheduler.go -/

/-- Go: `scheduler.Scheduler`. Instants are nanoseconds on the time line. -/
structure Scheduler where
  CheckInTime : Int
  Verbose : Bool

/-- Smallest `time.Duration` (an `int64` count of nanoseconds). -/
def minDuration : Int := -9223372036854775808

/-- Largest `time.Duration`. -/
def maxDuration : Int := 9223372036854775807

/-- Go standard library `time.Time.Sub`: the difference `t - u`, saturated to
the range of `time.Duration`. -/
def timeSub (t u : Int) : Int :=
  if t - u < minDuration then minDuration
  else if maxDuration < t - u then maxDuration
  else t - u

/-- Go: `time.Millisecond`. -/
def Millisecond : Int := 1000000

/-- The `return` statement through which `WaitUntilCheckIn` leaves. -/
inductive WaitExit
  | alreadyOpen
  | nowOpen
  | busyWaited
deriving DecidableEq

/-- What a finished wait has done: how it left, and how many clock readings
(`time.Until`, `time.Now`) it took. -/
structure WaitResult where
  exit : WaitExit
  reads : Nat
deriving DecidableEq

/-- Go: `(*Scheduler).busyWait`, `for time.Now().Before(s.CheckInTime) {}`.
`clock i` is the i-th reading of the clock, `reads` the number of readings
taken so far; the result is the number of readings taken when the loop ends. -/
def busyWait (s : Scheduler) (clock : Nat → Int) : Nat → Nat → Option Nat
  | 0, _ => none
  | fuel + 1, reads =>
    if clock reads < s.CheckInTime then busyWait s clock fuel (reads + 1)
    else some (reads + 1)

/-- The `for { ... }` loop of `WaitUntilCheckIn`; one iteration per tick. -/
def waitLoop (s : Scheduler) (clock : Nat → Int) : Nat → Nat → Option WaitResult
  | 0, _ => none
  | fuel + 1, reads =>
    let remaining := timeSub s.CheckInTime (clock reads)
    if remaining ≤ 0 then
      some { exit := .nowOpen, reads := reads + 1 }
    else if remaining ≤ 100 * Millisecond then
      (busyWait s clock fuel (reads + 1)).map fun n => { exit := .busyWaited, reads := n }
    else
      waitLoop s clock fuel (reads + 1)

/-- Go: `(*Scheduler).WaitUntilCheckIn`. `none` when the fuel runs out. -/
def WaitUntilCheckIn (s : Scheduler) (clock : Nat → Int) (fuel : Nat) : Option WaitResult :=
  let remaining := timeSub s.CheckInTime (clock 0)
  if remaining ≤ 0 then
    some { exit := .alreadyOpen, reads := 1 }
  else
    waitLoop s clock fuel 1

/-- A clock that starts at 0 and advances by `step` from one reading to the next. -/
def steadyClock (step : Int) (i : Nat) : Int := step * i

/-! ## encoding/json, as far as the client uses it -/

/-- A JSON value. A number keeps its text. -/
inductive Json
  | null
  | bool (b : Bool)
  | number (text : List Char)
  | string (s : String)
  | array (items : List Json)
  | object (members : List (String × Json))

/-- The double quote, U+0022. -/
def quoteChar : Char := Char.ofNat 34

/-- The backslash, U+005C. -/
def backslashChar : Char := Char.ofNat 92

/-- The opening brace, U+007B. -/
def openBrace : Char := Char.ofNat 123

/-- The closing brace, U+007D. -/
def closeBrace : Char := Char.ofNat 125

/-- JSON white space: space, tab, carriage return, line feed. -/
def isJsonSpace (c : Char) : Bool :=
  c == ' ' || c == Char.ofNat 9 || c == Char.ofNat 13 || c == Char.ofNat 10

/-- Drop leading JSON white space. -/
def skipSpace : List Char → List Char
  | [] => []
  | c :: cs => if isJsonSpace c then skipSpace cs else c :: cs

/-- The value of a hexadecimal digit. -/
def hexVal (c : Char) : Option Nat :=
  let n := c.toNat
  if 48 ≤ n ∧ n ≤ 57 then some (n - 48)
  else if 97 ≤ n ∧ n ≤ 102 then some (n - 87)
  else if 65 ≤ n ∧ n ≤ 70 then some (n - 55)
  else none

/-- Go `encoding/json` `getu4`: the code unit written by the four hexadecimal
digits of a `\u` escape. -/
def getu4 (a b c d : Char) : Option Nat :=
  match hexVal a, hexVal b, hexVal c, hexVal d with
  | some x1, some x2, some x3, some x4 => some (((x1 * 16 + x2) * 16 + x3) * 16 + x4)
  | _, _, _, _ => none

/-- The replacement character U+FFFD. -/
def replacementChar : Char := Char.ofNat 0xFFFD

/-- Go standard library `utf16.DecodeRune`: the character of a surrogate pair,
U+FFFD when the two code units do not form one. -/
def decodeSurrogates (r1 r2 : Nat) : Char :=
  if 0xd800 ≤ r1 ∧ r1 < 0xdc00 ∧ 0xdc00 ≤ r2 ∧ r2 < 0xe000 then
    Char.ofNat ((r1 - 0xd800) * 1024 + (r2 - 0xdc00) + 0x10000)
  else replacementChar

/-- The character written by a one-letter escape `\e`. -/
def unescape (e : Char) : Option Char :=
  if e = quoteChar then some quoteChar
  else if e = backslashChar then some backslashChar
  else if e = '/' then some '/'
  else if e = 'b' then some (Char.ofNat 8)
  else if e = 'f' then some (Char.ofNat 12)
  else if e = 'n' then some (Char.ofNat 10)
  else if e = 'r' then some (Char.ofNat 13)
  else if e = 't' then some (Char.ofNat 9)
  else none

/-- Go `encoding/json`: read a string literal after its opening quote (the
scanner and `unquote` in one pass). `acc` holds the characters decoded so far;
the result is the decoded string and the text after the closing quote. A raw
control character ends the parse with an error; a `\u` escape of a lone or
mismatched surrogate decodes to U+FFFD. One unit of fuel is used per decoded
character. -/
def parseStringBody : Nat → List Char → List Char → Option (List Char × List Char)
  | 0, _, _ => none
  | _ + 1, [], _ => none
  | fuel + 1, c :: cs, acc =>
    if c = quoteChar then some (acc, cs)
    else if c = backslashChar then
      match cs with
      | [] => none
      | e :: cs1 =>
        if e = 'u' then
          match cs1 with
          | h1 :: h2 :: h3 :: h4 :: cs2 =>
            match getu4 h1 h2 h3 h4 with
            | none => none
            | some rr =>
              if 0xd800 ≤ rr ∧ rr < 0xe000 then
                match cs2 with
                | b2 :: u2 :: g1 :: g2 :: g3 :: g4 :: cs3 =>
                  if b2 = backslashChar ∧ u2 = 'u' then
                    match getu4 g1 g2 g3 g4 with
                    | some rr1 =>
                      if decodeSurrogates rr rr1 = replacementChar then
                        parseStringBody fuel cs2 (acc ++ [replacementChar])
                      else parseStringBody fuel cs3 (acc ++ [decodeSurrogates rr rr1])
                    | none => none
                  else parseStringBody fuel cs2 (acc ++ [replacementChar])
                | _ => parseStringBody fuel cs2 (acc ++ [replacementChar])
              else parseStringBody fuel cs2 (acc ++ [Char.ofNat rr])
          | _ => none
        else
          match unescape e with
          | some ch => parseStringBody fuel cs1 (acc ++ [ch])
          | none => none
    else if c.toNat < 0x20 then none
    else parseStringBody fuel cs (acc ++ [c])

/-- An ASCII digit. -/
def isDigit (c : Char) : Bool := 48 ≤ c.toNat && c.toNat ≤ 57

/-- A non-empty run of digits. -/
def scanDigits (cs : List Char) : Option (List Char × List Char) :=
  let ds := cs.takeWhile isDigit
  if ds.isEmpty then none else some (ds, cs.dropWhile isDigit)

/-- The integer part of a JSON number: `0`, or a digit from 1 to 9 followed by
digits. -/
def scanInt (cs : List Char) : Option (List Char × List Char) :=
  match cs with
  | [] => none
  | c :: rest =>
    if c = '0' then some ([c], rest)
    else if isDigit c then some (c :: rest.takeWhile isDigit, rest.dropWhile isDigit)
    else none

/-- The optional fraction of a JSON number. -/
def scanFrac (cs : List Char) : Option (List Char × List Char) :=
  match cs with
  | c :: rest =>
    if c = '.' then (scanDigits rest).map fun p => (c :: p.1, p.2)
    else some ([], cs)
  | [] => some ([], cs)

/-- The optional exponent of a JSON number. -/
def scanExp (cs : List Char) : Option (List Char × List Char) :=
  match cs with
  | c :: rest =>
    if c = 'e' ∨ c = 'E' then
      match rest with
      | s :: rest1 =>
        if s = '+' ∨ s = '-' then (scanDigits rest1).map fun p => (c :: s :: p.1, p.2)
        else (scanDigits rest).map fun p => (c :: p.1, p.2)
      | [] => none
    else some ([], cs)
  | [] => some ([], cs)

/-- A JSON number: its text and the text after it. -/
def scanNumber (cs : List Char) : Option (List Char × List Char) :=
  let signed : List Char × List Char :=
    match cs with
    | c :: rest => if c = '-' then ([c], rest) else ([], cs)
    | [] => ([], cs)
  match scanInt signed.2 with
  | none => none
  | some (i, r1) =>
    match scanFrac r1 with
    | none => none
    | some (f, r2) =>
      match scanExp r2 with
      | none => none
      | some (e, r3) => some (signed.1 ++ i ++ f ++ e, r3)

/-- Read the literal `lit` (`true`, `false`, `null`). -/
def stripLiteral (lit : List Char) (cs : List Char) : Option (List Char) :=
  if lit.isPrefixOf cs then some (cs.drop lit.length) else none

/-- The members of a JSON object, from the first key to the closing brace;
`pv` reads a value. -/
def parseMembers (pv : List Char → Option (Json × List Char)) :
    Nat → List Char → List (String × Json) → Option (List (String × Json) × List Char)
  | 0, _, _ => none
  | n + 1, cs, acc =>
    match cs with
    | [] => none
    | q :: cs1 =>
      if q = quoteChar then
        match parseStringBody cs1.length cs1 [] with
        | none => none
        | some (key, cs2) =>
          match skipSpace cs2 with
          | [] => none
          | col :: cs3 =>
            if col = ':' then
              match pv cs3 with
              | none => none
              | some (v, cs4) =>
                match skipSpace cs4 with
                | [] => none
                | d :: cs5 =>
                  if d = ',' then parseMembers pv n (skipSpace cs5) (acc ++ [(String.mk key, v)])
                  else if d = closeBrace then some (acc ++ [(String.mk key, v)], cs5)
                  else none
            else none
      else none

/-- The items of a JSON array, from the first item to the closing bracket;
`pv` reads a value. -/
def parseElements (pv : List Char → Option (Json × List Char)) :
    Nat → List Char → List Json → Option (List Json × List Char)
  | 0, _, _ => none
  | n + 1, cs, acc =>
    match pv cs with
    | none => none
    | some (v, cs1) =>
      match skipSpace cs1 with
      | [] => none
      | d :: cs2 =>
        if d = ',' then parseElements pv n cs2 (acc ++ [v])
        else if d = ']' then some (acc ++ [v], cs2)
        else none

/-- A JSON value and the text after it. The fuel is the nesting budget: a
value read with fuel `f + 1` may open an object or an array only when `f > 0`,
and what is inside is read with fuel `f`. -/
def parseValue : Nat → List Char → Option (Json × List Char)
  | 0, _ => none
  | fuel + 1, cs =>
    match skipSpace cs with
    | [] => none
    | c :: rest =>
      if c = openBrace then
        if fuel = 0 then none
        else
          match skipSpace rest with
          | [] => none
          | d :: rest1 =>
            if d = closeBrace then some (.object [], rest1)
            else (parseMembers (parseValue fuel) rest.length (d :: rest1) []).map
              fun p => (.object p.1, p.2)
      else if c = '[' then
        if fuel = 0 then none
        else
          match skipSpace rest with
          | [] => none
          | d :: rest1 =>
            if d = ']' then some (.array [], rest1)
            else (parseElements (parseValue fuel) rest.length (d :: rest1) []).map
              fun p => (.array p.1, p.2)
      else if c = quoteChar then
        (parseStringBody rest.length rest []).map fun p => (.string (String.mk p.1), p.2)
      else if c = 't' then (stripLiteral "true".toList (c :: rest)).map fun r => (.bool true, r)
      else if c = 'f' then (stripLiteral "false".toList (c :: rest)).map fun r => (.bool false, r)
      else if c = 'n' then (stripLiteral "null".toList (c :: rest)).map fun r => (.null, r)
      else (scanNumber (c :: rest)).map fun p => (.number p.1, p.2)

/-- Go `encoding/json` `maxNestingDepth`: the number of objects and arrays that
may be open at once. -/
def maxNestingDepth : Nat := 10000

/-- Go `encoding/json`: the value a whole text denotes; `none` on a syntax
error, which includes opening more than `maxNestingDepth` objects and arrays
inside one another. -/
def jsonParse (text : List Char) : Option Json :=
  match parseValue (maxNestingDepth + 1) text with
  | none => none
  | some (v, rest) => if (skipSpace rest).isEmpty then some v else none

deriving instance DecidableEq for Except

/-- Simple case folding of a character, as far as it can reach an ASCII
letter: upper-case ASCII, the Kelvin sign and the long s. -/
def foldChar (c : Char) : Char :=
  if c.toNat = 0x212A then 'k'
  else if c.toNat = 0x17F then 's'
  else c.toLower

/-- Go `encoding/json` matches an object key with a field name exactly or,
failing that, up to case folding; the names here are ASCII and pairwise
different up to case. -/
def keyIs (key name : String) : Bool :=
  key.toList.map foldChar == name.toList.map foldChar

/-- Go `encoding/json`: a JSON value stored in a `string` field. `null` leaves
the field as it is; anything but a string is a type error. -/
def decodeString (cur : String) : Json → Except String String
  | .string s => .ok s
  | .null => .ok cur
  | _ => .error "json: cannot unmarshal value into Go value of type string"

/-- Go `encoding/json`: a JSON value stored in a struct: the members of an
object are stored one after the other in the fields their keys name; `null`
leaves the struct as it is; anything else is a type error. -/
def decodeStruct {α : Type} (setField : α → String → Json → Except String α) (cur : α) :
    Json → Except String α
  | .object members =>
    members.foldl (fun acc m => acc.bind fun a => setField a m.1 m.2) (.ok cur)
  | .null => .ok cur
  | _ => .error "json: cannot unmarshal value into Go value of type struct"

/-- A Go slice while `encoding/json` fills it: its elements, and the elements
that its backing array still holds past its length (left there when an earlier
array for the same key was longer). Past those the backing array is zero. -/
structure Slice (α : Type) where
  elems : List α
  spare : List α
deriving DecidableEq

/-- Go `encoding/json`, the loop of `(*decodeState).array` on a slice: item
`i` of the array is decoded into element `i` of the backing array, whatever
that holds (`zero` past what it holds). -/
def decodeItems {α : Type} (zero : α) (decodeItem : α → Json → Except String α) :
    List Json → List α → Except String (List α)
  | [], _ => .ok []
  | v :: vs, backing =>
    (decodeItem (backing.headD zero) v).bind fun a =>
      (decodeItems zero decodeItem vs backing.tail).map fun l => a :: l

/-- Go `encoding/json`: a JSON value stored in a slice. The items of an array
are decoded into the elements the slice already has, then into what its
backing array holds past them, then into zero elements; the slice is cut to
the number of items, and an empty array gives a new empty slice. `null` gives
the nil slice; anything else is a type error. -/
def decodeSlice {α : Type} (zero : α) (decodeItem : α → Json → Except String α)
    (cur : Slice α) : Json → Except String (Slice α)
  | .array items =>
    if items.isEmpty then .ok { elems := [], spare := [] }
    else
      (decodeItems zero decodeItem items (cur.elems ++ cur.spare)).map fun l =>
        { elems := l, spare := (cur.elems ++ cur.spare).drop l.length }
  | .null => .ok { elems := [], spare := [] }
  | _ => .error "json: cannot unmarshal value into Go value of type slice"

/-- Store a member in the field of a `CheckInRequestBody` that its key names. -/
def CheckInRequestBody.setField (b : CheckInRequestBody) (key : String) (v : Json) :
    Except String CheckInRequestBody :=
  if keyIs key "firstName" then (decodeString b.FirstName v).map fun s => { b with FirstName := s }
  else if keyIs key "lastName" then (decodeString b.LastName v).map fun s => { b with LastName := s }
  else if keyIs key "recordLocator" then
    (decodeString b.RecordLocator v).map fun s => { b with RecordLocator := s }
  else .ok b

/-- Store a member in the field of a `CheckInLink` that its key names. -/
def CheckInLink.setField (l : CheckInLink) (key : String) (v : Json) : Except String CheckInLink :=
  if keyIs key "href" then (decodeString l.Href v).map fun s => { l with Href := s }
  else if keyIs key "method" then (decodeString l.Method v).map fun s => { l with Method := s }
  else if keyIs key "body" then
    (decodeStruct CheckInRequestBody.setField l.Body v).map fun b => { l with Body := b }
  else .ok l

/-- Store a member in the field of a `CheckInLinks` that its key names. -/
def CheckInLinks.setField (l : CheckInLinks) (key : String) (v : Json) : Except String CheckInLinks :=
  if keyIs key "checkIn" then
    (decodeStruct CheckInLink.setField l.CheckIn v).map fun c => { l with CheckIn := c }
  else .ok l

/-- Store a member in the field of a `ReservationFlight` that its key names. -/
def ReservationFlight.setField (f : ReservationFlight) (key : String) (v : Json) :
    Except String ReservationFlight :=
  if keyIs key "flightNumber" then
    (decodeString f.FlightNumber v).map fun s => { f with FlightNumber := s }
  else if keyIs key "departureTime" then
    (decodeString f.DepartureTime v).map fun s => { f with DepartureTime := s }
  else if keyIs key "originationAirportCode" then
    (decodeString f.OriginAirport v).map fun s => { f with OriginAirport := s }
  else if keyIs key "destinationAirportCode" then
    (decodeString f.DestinationAirport v).map fun s => { f with DestinationAirport := s }
  else .ok f

/-- A `CheckInViewReservationPage` while it is decoded. -/
structure LookupPageState where
  PNR : String
  Flights : Slice ReservationFlight
  Links : CheckInLinks
deriving DecidableEq

/-- A `ReservationLookupResponse` while it is decoded. -/
structure LookupState where
  CheckInViewReservationPage : LookupPageState
deriving DecidableEq

/-- A `ConfirmationFlight` while it is decoded. -/
structure FlightState where
  FlightNumber : String
  OriginAirportCode : String
  DestinationAirportCode : String
  DepartureTime : String
  Passengers : Slice ConfirmationPassenger
deriving DecidableEq

/-- A `CheckInConfirmationPage` while it is decoded. -/
structure ConfirmationPageState where
  Flights : Slice FlightState
deriving DecidableEq

/-- A `CheckInConfirmationResponse` while it is decoded. -/
structure ConfirmationState where
  CheckInConfirmationPage : ConfirmationPageState
deriving DecidableEq

/-- Store a member in the field of a `CheckInViewReservationPage` that its key
names. -/
def LookupPageState.setField (p : LookupPageState) (key : String) (v : Json) :
    Except String LookupPageState :=
  if keyIs key "pnr" then (decodeString p.PNR v).map fun s => { p with PNR := s }
  else if keyIs key "flights" then
    (decodeSlice { FlightNumber := "", DepartureTime := "", OriginAirport := "",
                   DestinationAirport := "" }
      (decodeStruct ReservationFlight.setField) p.Flights v).map
      fun fl => { p with Flights := fl }
  else if keyIs key "_links" then
    (decodeStruct CheckInLinks.setField p.Links v).map fun l => { p with Links := l }
  else .ok p

/-- Store a member in the field of a `ReservationLookupResponse` that its key
names. -/
def LookupState.setField (r : LookupState) (key : String) (v : Json) :
    Except String LookupState :=
  if keyIs key "checkInViewReservationPage" then
    (decodeStruct LookupPageState.setField r.CheckInViewReservationPage v).map
      fun p => { r with CheckInViewReservationPage := p }
  else .ok r

/-- The lookup response that has been decoded. -/
def LookupState.value (r : LookupState) : ReservationLookupResponse :=
  { CheckInViewReservationPage :=
      { PNR := r.CheckInViewReservationPage.PNR
        Flights := r.CheckInViewReservationPage.Flights.elems
        Links := r.CheckInViewReservationPage.Links } }

/-- The zero value of `models.ReservationLookupResponse`, to decode into. -/
def LookupState.zero : LookupState :=
  { CheckInViewReservationPage :=
      { PNR := "", Flights := { elems := [], spare := [] }
        Links := { CheckIn := { Href := "", Method := ""
                                Body := { FirstName := "", LastName := "", RecordLocator := "" } } } } }

/-- Store a member in the field of a `ConfirmationPassenger` that its key names. -/
def ConfirmationPassenger.setField (p : ConfirmationPassenger) (key : String) (v : Json) :
    Except String ConfirmationPassenger :=
  if keyIs key "name" then (decodeString p.Name v).map fun s => { p with Name := s }
  else if keyIs key "boardingGroup" then
    (decodeString p.BoardingGroup v).map fun s => { p with BoardingGroup := s }
  else if keyIs key "boardingPosition" then
    (decodeString p.BoardingPosition v).map fun s => { p with BoardingPosition := s }
  else .ok p

/-- Store a member in the field of a `ConfirmationFlight` that its key names. -/
def FlightState.setField (f : FlightState) (key : String) (v : Json) :
    Except String FlightState :=
  if keyIs key "flightNumber" then
    (decodeString f.FlightNumber v).map fun s => { f with FlightNumber := s }
  else if keyIs key "originAirportCode" then
    (decodeString f.OriginAirportCode v).map fun s => { f with OriginAirportCode := s }
  else if keyIs key "destinationAirportCode" then
    (decodeString f.DestinationAirportCode v).map fun s => { f with DestinationAirportCode := s }
  else if keyIs key "departureTime" then
    (decodeString f.DepartureTime v).map fun s => { f with DepartureTime := s }
  else if keyIs key "passengers" then
    (decodeSlice { Name := "", BoardingGroup := "", BoardingPosition := "" }
      (decodeStruct ConfirmationPassenger.setField) f.Passengers v).map
      fun ps => { f with Passengers := ps }
  else .ok f

/-- Store a member in the field of a `CheckInConfirmationPage` that its key
names. -/
def ConfirmationPageState.setField (p : ConfirmationPageState) (key : String) (v : Json) :
    Except String ConfirmationPageState :=
  if keyIs key "flights" then
    (decodeSlice { FlightNumber := "", OriginAirportCode := "", DestinationAirportCode := "",
                   DepartureTime := "", Passengers := { elems := [], spare := [] } }
      (decodeStruct FlightState.setField) p.Flights v).map
      fun fl => { p with Flights := fl }
  else .ok p

/-- Store a member in the field of a `CheckInConfirmationResponse` that its key
names. -/
def ConfirmationState.setField (r : ConfirmationState) (key : String) (v : Json) :
    Except String ConfirmationState :=
  if keyIs key "checkInConfirmationPage" then
    (decodeStruct ConfirmationPageState.setField r.CheckInConfirmationPage v).map
      fun p => { r with CheckInConfirmationPage := p }
  else .ok r

/-- The flight that has been decoded. -/
def FlightState.value (f : FlightState) : ConfirmationFlight :=
  { FlightNumber := f.FlightNumber
    OriginAirportCode := f.OriginAirportCode
    DestinationAirportCode := f.DestinationAirportCode
    DepartureTime := f.DepartureTime
    Passengers := f.Passengers.elems }

/-- The confirmation that has been decoded. -/
def ConfirmationState.value (r : ConfirmationState) : CheckInConfirmationResponse :=
  { CheckInConfirmationPage :=
      { Flights := r.CheckInConfirmationPage.Flights.elems.map FlightState.value } }

/-- The zero value of `models.CheckInConfirmationResponse`, to decode into. -/
def ConfirmationState.zero : ConfirmationState :=
  { CheckInConfirmationPage := { Flights := { elems := [], spare := [] } } }

/-- Go `json.Unmarshal(data, &v)` for a struct `v` with value `zero`: a syntax
error anywhere in `data` is reported before anything is stored. -/
def jsonUnmarshal {α : Type} (setField : α → String → Json → Except String α) (zero : α)
    (data : List Char) : Except String α :=
  match jsonParse data with
  | none => .error "json: syntax error"
  | some v => decodeStruct setField zero v

/-- Go: `json.Unmarshal(body, &lookupResp)` in `lookupReservation`. -/
def unmarshalLookup (body : List Char) : Except String ReservationLookupResponse :=
  (jsonUnmarshal LookupState.setField LookupState.zero body).map LookupState.value

/-- Go: `json.Unmarshal(body, &confirmResp)` in `performCheckIn`. -/
def unmarshalConfirmation (body : List Char) : Except String CheckInConfirmationResponse :=
  (jsonUnmarshal ConfirmationState.setField ConfirmationState.zero body).map
    ConfirmationState.value

/-- The lower-case hexadecimal digit of a number below 16. -/
def hexDigit (n : Nat) : Char :=
  if n < 10 then Char.ofNat (48 + n) else Char.ofNat (87 + n)

/-- Go `encoding/json`, the string encoder (with HTML escaping, the default of
`json.Marshal`) on one character: quote and backslash get a backslash, the
control characters a short or a `\u00XX` escape, `<`, `>`, `&`, U+2028 and
U+2029 a `\u` escape; every other character stands for itself. -/
def jsonEscape (c : Char) : List Char :=
  let n := c.toNat
  if c = quoteChar ∨ c = backslashChar then [backslashChar, c]
  else if n = 8 then [backslashChar, 'b']
  else if n = 12 then [backslashChar, 'f']
  else if n = 10 then [backslashChar, 'n']
  else if n = 13 then [backslashChar, 'r']
  else if n = 9 then [backslashChar, 't']
  else if n < 0x20 ∨ c = '<' ∨ c = '>' ∨ c = '&' then
    [backslashChar, 'u', '0', '0', hexDigit (n / 16), hexDigit (n % 16)]
  else if n = 0x2028 ∨ n = 0x2029 then
    [backslashChar, 'u', '2', '0', '2', hexDigit (n % 16)]
  else [c]

/-- Go `json.Marshal` of a string. -/
def jsonMarshalString (s : String) : List Char :=
  quoteChar :: s.toList.flatMap jsonEscape ++ [quoteChar]

/-- Go `json.Marshal` of a `models.CheckInRequestBody`: its three fields, in
declaration order, under the names of their `json` tags. -/
def jsonMarshalBody (b : CheckInRequestBody) : List Char :=
  [openBrace] ++ jsonMarshalString "firstName" ++ [':'] ++ jsonMarshalString b.FirstName ++
  [','] ++ jsonMarshalString "lastName" ++ [':'] ++ jsonMarshalString b.LastName ++
  [','] ++ jsonMarshalString "recordLocator" ++ [':'] ++ jsonMarshalString b.RecordLocator ++
  [closeBrace]

/-! ## The transport seen by `internal/checkin/checkin.go` -/

/-- Go: `error` values built in `checkin.go`, with what they wrap. `nil` is the
nil error (the initial `lastErr`). -/
inductive Err
  | nil
  | invalidMethod (method : String)
  | invalidURL (url : String)
  | transport (cause : String)
  | serverError (status : Int)
  | maxRetriesExceeded (lastErr : Err)
  | readResponse (cause : String)
  | lookupStatus (status : Int) (body : List Char)
  | parseResponse (cause : String)
  | checkInStatus (status : Int) (body : List Char)
  | parseCheckIn (cause : String)
  | lookupFailed (cause : Err)
  | checkInFailed (cause : Err)
deriving DecidableEq

/-- Go: `http.Header`, as the list of its entries. -/
abbrev Header := List (String × String)

/-- Go standard library `textproto.CanonicalMIMEHeaderKey` on the characters of
a key made of token characters: upper case for the first letter and for a
letter after a hyphen, lower case for the other letters. -/
def canonicalChars : Bool → List Char → List Char
  | _, [] => []
  | upper, c :: cs =>
    (if upper then c.toUpper else c.toLower) :: canonicalChars (c == '-') cs

/-- Go: `http.Request`, the fields `checkin.go` touches. `URL` is the text
`URL.String()` prints for the request's URL. `Body` is the state of the body
reader: `none` for a nil body, `some rest` for a reader with the bytes `rest`
still unread. -/
structure Request where
  Method : String
  URL : String
  Header : Header
  Body : Option (List Char)
deriving DecidableEq

/-- Go: `http.Response`. `Body` is what `io.ReadAll(resp.Body)` yields and
`BodyErr` the error it reports, if any. -/
structure Response where
  StatusCode : Int
  Body : List Char
  BodyErr : Option String
deriving DecidableEq

/-- The result of one `http.Client.Do` call: a transport-level failure or a
response; either way the transport has read `bodyRead` bytes of the request
body before returning. -/
inductive Outcome
  | failure (cause : String) (bodyRead : Nat)
  | response (resp : Response) (bodyRead : Nat)
deriving DecidableEq

/-- The bytes of the request body a call consumed. -/
def Outcome.bodyRead : Outcome → Nat
  | .failure _ n => n
  | .response _ n => n

/-- The remote side: the outcome of the i-th `Do` call of the process, given
the request submitted. -/
abbrev Transport := Nat → Request → Outcome

/-- What the client does to the outside world, in order. -/
inductive Event
  | sleep (d : Int)
  | exchange (req : Request) (out : Outcome)
deriving DecidableEq

/-- The requests submitted, with their outcomes, in order. -/
def exchanges : List Event → List (Request × Outcome)
  | [] => []
  | .sleep _ :: es => exchanges es
  | .exchange req out :: es => (req, out) :: exchanges es

/-- The delays slept, in order. -/
def sleeps : List Event → List Int
  | [] => []
  | .sleep d :: es => d :: sleeps es
  | .exchange _ _ :: es => sleeps es

/-- Go: `checkin.Client`. The `http.Client` is the transport it talks to; what
`verbose` prints is not modelled. -/
structure Client where
  httpClient : Transport
  verbose : Bool

/-- Go standard library `httpguts.IsTokenRune`. -/
def isTokenRune (c : Char) : Bool :=
  c.isAlphanum || "!#$%&'*+-.^_`|~".toList.contains c

/-- Go standard library `textproto.CanonicalMIMEHeaderKey`: a key with a
character that is not a token character is left as it is. -/
def canonicalKey (key : String) : String :=
  if key.toList.all isTokenRune then String.mk (canonicalChars true key.toList) else key

/-- Go standard library `http.Header.Set`: replace the entry of the canonical
form of `key`, or add it. -/
def Header.Set (h : Header) (key value : String) : Header :=
  if h.any (fun kv => kv.1 == canonicalKey key) then
    h.map fun kv => if kv.1 == canonicalKey key then (canonicalKey key, value) else kv
  else h ++ [(canonicalKey key, value)]

/-- Go standard library `http.validMethod`. -/
def validMethod (method : String) : Bool :=
  method.length > 0 && method.toList.all isTokenRune

/-- An unreserved URL character: an ASCII letter or digit, `-`, `_`, `.`, `~`. -/
def plainChar (c : Char) : Bool :=
  c.isAlphanum || c == '-' || c == '_' || c == '.' || c == '~'

/-- A plain URL of the service: the text "https://mobile.southwest.com", then a
path that is empty or starts with `/` and is made of unreserved characters and
`/`, then possibly `?` and a query made of unreserved characters, `=` and `&`.
Go's `net/url` parses such a text and prints the result as the same text. -/
def plainURL (s : String) : Bool :=
  "https://mobile.southwest.com".toList.isPrefixOf s.toList &&
  (let rest := s.toList.drop "https://mobile.southwest.com".length
   let path := rest.takeWhile (fun c => c != '?')
   let query := (rest.dropWhile (fun c => c != '?')).drop 1
   (path.isEmpty || path.head? == some '/') &&
   path.all (fun c => plainChar c || c == '/') &&
   query.all (fun c => plainChar c || c == '=' || c == '&'))

/-- ASCII upper-casing, what `strings.ToUpper` does to ASCII text. -/
def asciiUpper (s : String) : String := String.mk (s.toList.map Char.toUpper)

/-- The two functions of the Go standard library that the client calls and
that are not spelled out here, with what is used of them.

* `requestURL s` is the URL `http.NewRequest` gives a request for the URL text
  `s` (`url.Parse`, then the removal of an empty port), as the text
  `URL.String()` prints for it, or the error of `url.Parse`. A plain URL is read
  and printed as itself, and the text printed for a URL reads back as that URL
  (`doWithRetry` rebuilds a request from `req.URL.String()`). Which other texts
  parse, and how they are printed (`/a b` is printed `/a%20b`), is left to the
  library.
* `ToUpper` is `strings.ToUpper`; on ASCII text it is ASCII upper-casing. -/
structure GoLib where
  requestURL : String → Except Err String
  ToUpper : String → String
  requestURL_plain : ∀ s, plainURL s = true → requestURL s = .ok s
  requestURL_again : ∀ s u, requestURL s = .ok u → requestURL u = .ok u
  ToUpper_ascii : ∀ s, s.toList.all (fun c => decide (c.toNat < 128)) = true →
    ToUpper s = asciiUpper s

/-- The library cut down to plain input, for evaluating the client on concrete
runs: it reads plain URLs and refuses every other text, and it upper-cases
ASCII letters only. Where it accepts a URL, every `GoLib` gives the same
answer. -/
def plainGo : GoLib :=
  { requestURL := fun s => if plainURL s = true then .ok s else .error (.invalidURL s)
    ToUpper := asciiUpper
    requestURL_plain := fun s h => if_pos h
    requestURL_again := fun s u h => by
      have h' : (if plainURL s = true then (Except.ok s : Except Err String)
          else .error (.invalidURL s)) = .ok u := h
      show (if plainURL u = true then (Except.ok u : Except Err String)
          else .error (.invalidURL u)) = .ok u
      by_cases hs : plainURL s = true
      · rw [if_pos hs] at h'
        cases h'
        exact if_pos hs
      · rw [if_neg hs] at h'
        cases h'
    ToUpper_ascii := fun _ _ => rfl }

/-- Go standard library `http.NewRequest`: an empty method means GET, the
method must be a token, the URL must parse; the new request has no headers. -/
def NewRequest (lib : GoLib) (method url : String) (body : Option (List Char)) :
    Except Err Request :=
  let method := if method = "" then "GET" else method
  if !validMethod method then .error (.invalidMethod method)
  else
    match lib.requestURL url with
    | .error err => .error err
    | .ok u => .ok { Method := method, URL := u, Header := [], Body := body }

/-- Go: `int64` wrap-around of an integer. -/
def wrapInt64 (x : Int) : Int := (x + 9223372036854775808) % 18446744073709551616 - 9223372036854775808

/-- Go: `time.Second`, in nanoseconds. -/
def Second : Int := 1000000000

/-- Go: `backoff := time.Duration(1<<uint(attempt-1)) * time.Second`, for
`attempt >= 1`: a shift and a product in `int64`. -/
def backoff (attempt : Nat) : Int :=
  wrapInt64 (wrapInt64 (2 ^ (attempt - 1)) * Second)

/-- The request after a `Do` call that read `n` bytes of its body. -/
def Request.afterRead (req : Request) (n : Nat) : Request :=
  { req with Body := req.Body.map (List.drop n) }

/-- Go: the retry branch of `doWithRetry` after the sleep, lines 187-199:
a new request with the method and URL of `req`, sharing its headers; when
`req.Body` is not nil, `io.ReadAll(req.Body)` reads what is left of it and
that is the body of the new request. -/
def cloneForRetry (lib : GoLib) (req : Request) : Except Err Request :=
  match NewRequest lib req.Method req.URL none with
  | .error err => .error err
  | .ok newReq =>
    let newReq := { newReq with Header := req.Header }
    match req.Body with
    | some body => .ok { newReq with Body := some body }
    | none => .ok newReq

/-- Go: lines 180-186 of `doWithRetry`: before every attempt but the first the
loop sleeps `backoff`. -/
def sleepBefore (attempt : Nat) : List Event :=
  if attempt > 0 then [.sleep (backoff attempt)] else []

/-- Go: the request an attempt submits: the first attempt submits `req` itself,
a retry its clone (or nothing, when `http.NewRequest` fails). -/
def requestFor (lib : GoLib) (attempt : Nat) (req : Request) : Except Err Request :=
  if attempt > 0 then cloneForRetry lib req else .ok req

/-- Go: the `for attempt := 0; attempt < maxRetries; attempt++` loop of
`doWithRetry`; the first argument counts the iterations left, `calls` the `Do`
calls the process has made so far. -/
def retryLoop (lib : GoLib) (c : Client) :
    Nat → Nat → Nat → Request → Err →
    Except Err Response × List Event
  | 0, _, _, _, lastErr => (.error (.maxRetriesExceeded lastErr), [])
  | left + 1, attempt, calls, req, _ =>
    match requestFor lib attempt req with
    | .error err =>
      let rest := retryLoop lib c left (attempt + 1) calls req err
      (rest.1, sleepBefore attempt ++ rest.2)
    | .ok req =>
      match c.httpClient calls req with
      | .failure cause n =>
        let rest := retryLoop lib c left (attempt + 1) (calls + 1) (req.afterRead n) (.transport cause)
        (rest.1, sleepBefore attempt ++ .exchange req (.failure cause n) :: rest.2)
      | .response resp n =>
        if resp.StatusCode ≥ 500 then
          let rest := retryLoop lib c left (attempt + 1) (calls + 1) (req.afterRead n)
            (.serverError resp.StatusCode)
          (rest.1, sleepBefore attempt ++ .exchange req (.response resp n) :: rest.2)
        else
          (.ok resp, sleepBefore attempt ++ [.exchange req (.response resp n)])

/-- Go: `(*Client).doWithRetry`. `calls` is the number of `Do` calls made before. -/
def doWithRetry (lib : GoLib) (c : Client) (calls : Nat) (req : Request) (maxRetries : Int) :
    Except Err Response × List Event :=
  retryLoop lib c maxRetries.toNat 0 calls req .nil

/-- A request as `http.NewRequest` builds them: its method and URL pass the
checks again. -/
def Request.wellFormed (lib : GoLib) (req : Request) : Prop :=
  validMethod req.Method = true ∧ lib.requestURL req.URL = .ok req.URL

/-- An outcome after which `doWithRetry` goes on to the next attempt: a
transport-level failure, or a response with status 500 or more. -/
def Outcome.retryable : Outcome → Bool
  | .failure _ _ => true
  | .response resp _ => decide (resp.StatusCode ≥ 500)

/-- Go: the value `doWithRetry` assigns to `lastErr` after an attempt it
retries: the transport's error, or `fmt.Errorf("server error: %d", status)`. -/
def Outcome.lastErr : Outcome → Err
  | .failure cause _ => .transport cause
  | .response resp _ => .serverError resp.StatusCode

/-- In a run with result `res` and events `events`, an exchange answered with a
status below 500 is the last event and its response is the result. -/
def AcceptedIsLast (res : Except Err Response) (events : List Event) : Prop :=
  ∀ i rq resp k, events[i]? = some (.exchange rq (.response resp k)) →
    resp.StatusCode < 500 → res = .ok resp ∧ i + 1 = events.length

/-- A server that answers every request with 503 after reading its whole body. -/
def unavailable : Client :=
  { httpClient := fun _ req =>
      .response { StatusCode := 503, Body := [], BodyErr := none } (req.Body.getD []).length
    verbose := false }

/-- A GET request for the host, as `http.NewRequest` builds it. -/
def probeRequest : Request :=
  { Method := "GET", URL := "https://mobile.southwest.com", Header := [], Body := none }

/-- Go: `baseURL`. -/
def baseURL : String :=
  "https://mobile.southwest.com/api/mobile-air-operations/v1/mobile-air-operations/page/check-in"

/-- Go: `userAgent`. -/
def userAgent : String :=
  "Mozilla/5.0 (Linux; Android 10; SM-G960U) AppleWebKit/537.36 (KHTML, like Gecko) Chrome/91.0.4472.120 Mobile Safari/537.36"

/-- Go: `(*Client).setHeaders`. -/
def setHeaders (req : Request) : Request :=
  let h := req.Header.Set "User-Agent" userAgent
  let h := h.Set "Accept" "application/json, text/plain, */*"
  let h := h.Set "Accept-Language" "en-US,en;q=0.9"
  let h := h.Set "X-API-Key" "l7xx944d175ea25f4b9c903a583ea82a1c4c"
  let h := h.Set "X-Channel-ID" "MWEB"
  { req with Header := h }

/-- Go: lines 62-74 of `lookupReservation`: the Resolve request. -/
def lookupRequest (lib : GoLib) (reservation : Reservation) : Except Err Request :=
  let url := baseURL ++ "/" ++ lib.ToUpper reservation.ConfirmationNumber ++ "?first-name=" ++
    reservation.FirstName ++ "&last-name=" ++ reservation.LastName
  match NewRequest lib "GET" url none with
  | .error err => .error err
  | .ok req => .ok (setHeaders req)

/-- Go: `(*Client).lookupReservation`; the result and the events of the call. -/
def lookupReservation (lib : GoLib) (c : Client) (calls : Nat) (reservation : Reservation) :
    Except Err ReservationLookupResponse × List Event :=
  match lookupRequest lib reservation with
  | .error err => (.error err, [])
  | .ok req =>
    let run := doWithRetry lib c calls req 3
    match run.1 with
    | .error err => (.error err, run.2)
    | .ok resp =>
      match resp.BodyErr with
      | some cause => (.error (.readResponse cause), run.2)
      | none =>
        if resp.StatusCode ≠ 200 then (.error (.lookupStatus resp.StatusCode resp.Body), run.2)
        else
          match unmarshalLookup resp.Body with
          | .error cause => (.error (.parseResponse cause), run.2)
          | .ok lookupResp => (.ok lookupResp, run.2)

/-- Go: lines 104-117 of `performCheckIn`: the Act request. `json.Marshal`
does not fail on a `CheckInRequestBody`, so its error branch is left out. -/
def checkInRequest (lib : GoLib) (lookup : ReservationLookupResponse) : Except Err Request :=
  let checkInLink := lookup.CheckInViewReservationPage.Links.CheckIn
  let url := "https://mobile.southwest.com" ++ checkInLink.Href
  let bodyBytes := jsonMarshalBody checkInLink.Body
  match NewRequest lib checkInLink.Method url (some bodyBytes) with
  | .error err => .error err
  | .ok req =>
    let req := setHeaders req
    .ok { req with Header := req.Header.Set "Content-Type" "application/json" }

/-- Go: `(*Client).performCheckIn`; the result and the events of the call. -/
def performCheckIn (lib : GoLib) (c : Client) (calls : Nat)
    (lookup : ReservationLookupResponse) :
    Except Err CheckInConfirmationResponse × List Event :=
  match checkInRequest lib lookup with
  | .error err => (.error err, [])
  | .ok req =>
    let run := doWithRetry lib c calls req 3
    match run.1 with
    | .error err => (.error err, run.2)
    | .ok resp =>
      match resp.BodyErr with
      | some cause => (.error (.readResponse cause), run.2)
      | none =>
        if resp.StatusCode ≠ 200 then (.error (.checkInStatus resp.StatusCode resp.Body), run.2)
        else
          match unmarshalConfirmation resp.Body with
          | .error cause => (.error (.parseCheckIn cause), run.2)
          | .ok confirmResp => (.ok confirmResp, run.2)

/-- Go: `(*Client).CheckIn`; the result and the events of the call: those of
the Resolve phase followed by those of the Act phase. -/
def CheckIn (lib : GoLib) (c : Client) (calls : Nat) (reservation : Reservation) :
    Except Err (List BoardingPass) × List Event :=
  let resolve := lookupReservation lib c calls reservation
  match resolve.1 with
  | .error err => (.error (.lookupFailed err), resolve.2)
  | .ok lookupResp =>
    let act := performCheckIn lib c (calls + (exchanges resolve.2).length) lookupResp
    match act.1 with
    | .error err => (.error (.checkInFailed err), resolve.2 ++ act.2)
    | .ok confirmResp => (.ok (extractBoardingPasses confirmResp), resolve.2 ++ act.2)

/-- A reservation to look up. -/
def sampleReservation : Reservation :=
  { ConfirmationNumber := "abc123", FirstName := "John", LastName := "Doe", DepartureTime := 0 }

/-- A server that answers every request with status 200 and the body `{}`,
after reading the whole request body. -/
def emptyObjectServer : Client :=
  { httpClient := fun _ req =>
      .response { StatusCode := 200, Body := [openBrace, closeBrace], BodyErr := none }
        (req.Body.getD []).length
    verbose := false }

/-- A server that answers every request with status 404. -/
def notFoundServer : Client :=
  { httpClient := fun _ req =>
      .response { StatusCode := 404, Body := [], BodyErr := none } (req.Body.getD []).length
    verbose := false }

/-- A resolved record whose check-in link is POST /x with the body A, B, C. -/
def sampleLookup : ReservationLookupResponse :=
  { CheckInViewReservationPage :=
      { PNR := "ABC123", Flights := []
        Links := { CheckIn := { Href := "/x", Method := "POST"
                                Body := { FirstName := "A", LastName := "B", RecordLocator := "C" } } } } }

/-- A resolved record whose check-in link has an href and a body but no method. -/
def methodlessLookup : ReservationLookupResponse :=
  { CheckInViewReservationPage :=
      { PNR := "ABC123", Flights := []
        Links := { CheckIn := { Href := "/x", Method := ""
                                Body := { FirstName := "A", LastName := "B", RecordLocator := "C" } } } } }

/-- The JSON text of a check-in body with three empty strings. -/
def emptyBodyText : List Char :=
  "\x7b\"firstName\":\"\",\"lastName\":\"\",\"recordLocator\":\"\"\x7d".toList

/-- The Act request `performCheckIn` builds from the zero-valued check-in link. -/
def emptyActRequest : Request :=
  { Method := "GET"
    URL := "https://mobile.southwest.com"
    Header := [("User-Agent", userAgent), ("Accept", "application/json, text/plain, */*"),
      ("Accept-Language", "en-US,en;q=0.9"), ("X-Api-Key", "l7xx944d175ea25f4b9c903a583ea82a1c4c"),
      ("X-Channel-Id", "MWEB"), ("Content-Type", "application/json")]
    Body := some emptyBodyText }

/-! ## Theorems -/

theorem foldl_append_singleton {α β : Type} (f : α → β) (l : List α) (acc : List β) :
    l.foldl (fun passes a => passes ++ [f a]) acc = acc ++ l.map f := by
  induction l generalizing acc with
  | nil => simp
  | cons a l ih => simp [ih]

theorem extractBoardingPasses_eq_flatMap (confirm : CheckInConfirmationResponse) :
    extractBoardingPasses confirm =
      confirm.CheckInConfirmationPage.Flights.flatMap fun flight =>
        flight.Passengers.map (mkPass flight) := by
  unfold extractBoardingPasses
  suffices h : ∀ (fl : List ConfirmationFlight) (acc : List BoardingPass),
      fl.foldl (fun passes flight =>
        flight.Passengers.foldl (fun passes passenger => passes ++ [mkPass flight passenger]) passes)
        acc = acc ++ fl.flatMap fun flight => flight.Passengers.map (mkPass flight) by
    simpa using h confirm.CheckInConfirmationPage.Flights []
  intro fl
  induction fl with
  | nil => simp
  | cons f fl ih =>
    intro acc
    rw [List.foldl_cons, foldl_append_singleton, ih, List.flatMap_cons, List.append_assoc]

theorem fieldsLoop_spec (cs : List Char) :
    (∀ spans, fieldsLoop cs none spans =
        spans ++ (cs.splitOnP isSpace).filter (fun t => !t.isEmpty)) ∧
    (∀ cur spans, cur ≠ [] → fieldsLoop cs (some cur) spans =
        spans ++ ((cs.splitOnP isSpace).modifyHead (cur ++ ·)).filter (fun t => !t.isEmpty)) := by
  induction cs with
  | nil =>
    refine ⟨fun spans => by simp [fieldsLoop], fun cur spans hcur => ?_⟩
    cases cur with
    | nil => exact absurd rfl hcur
    | cons a cur => simp [fieldsLoop, List.modifyHead]
  | cons c cs ih =>
    obtain ⟨ihA, ihB⟩ := ih
    have hne := List.splitOnP_ne_nil isSpace cs
    refine ⟨fun spans => ?_, fun cur spans hcur => ?_⟩
    · by_cases hc : isSpace c = true
      · simp [fieldsLoop, hc, ihA, List.splitOnP_cons]
      · cases hsp : cs.splitOnP isSpace with
        | nil => exact absurd hsp hne
        | cons t ts =>
          simp [fieldsLoop, hc, ihB [c] spans (by simp), List.splitOnP_cons, hsp, List.modifyHead]
    · by_cases hc : isSpace c = true
      · cases cur with
        | nil => exact absurd rfl hcur
        | cons a cur =>
          simp [fieldsLoop, hc, ihA, List.splitOnP_cons, List.modifyHead]
      · cases hsp : cs.splitOnP isSpace with
        | nil => exact absurd hsp hne
        | cons t ts =>
          simp [fieldsLoop, hc, ihB (cur ++ [c]) spans (by simp), List.splitOnP_cons, hsp,
            List.modifyHead]

theorem Fields_eq_tokens (s : String) : Fields s = tokens s := by
  unfold Fields tokens
  rw [(fieldsLoop_spec s.toList).1, List.nil_append]

/-- C6: the number of boarding passes is the sum over the flights of the
response of their passenger counts. -/
theorem extractBoardingPasses_length (confirm : CheckInConfirmationResponse) :
    (extractBoardingPasses confirm).length =
      (confirm.CheckInConfirmationPage.Flights.map fun flight => flight.Passengers.length).sum := by
  rw [extractBoardingPasses_eq_flatMap]
  induction confirm.CheckInConfirmationPage.Flights with
  | nil => rfl
  | cons f fl ih => simp [List.flatMap_cons, ih]

/-- C7: the passes come flight by flight in response order and, within a
flight, passenger by passenger in response order; each carries the number,
origin, destination and departure time of its own flight and the boarding group
and position of its own passenger. -/
theorem extractBoardingPasses_views (confirm : CheckInConfirmationResponse) :
    (extractBoardingPasses confirm).map BoardingPass.view = expectedViews confirm := by
  rw [extractBoardingPasses_eq_flatMap, expectedViews]
  induction confirm.CheckInConfirmationPage.Flights with
  | nil => rfl
  | cons f fl ih =>
    simp only [List.flatMap_cons, List.map_append, ih, List.map_map]
    rfl

/-- C8: on a name with at least one whitespace-delimited token,
`extractFirstName` is the first token, `extractLastName` is the last token when
there are several and the empty string when there is one; "John Michael Doe"
splits into "John" and "Doe", "Madonna" into "Madonna" and "". -/
theorem extractName_tokens (fullName : String) (h : tokens fullName ≠ []) :
    (tokens fullName).head? = some (extractFirstName fullName) ∧
    (1 < (tokens fullName).length →
      (tokens fullName).getLast? = some (extractLastName fullName)) ∧
    ((tokens fullName).length = 1 → extractLastName fullName = "") ∧
    extractFirstName "John Michael Doe" = "John" ∧
    extractLastName "John Michael Doe" = "Doe" ∧
    extractFirstName "Madonna" = "Madonna" ∧
    extractLastName "Madonna" = "" := by
  refine ⟨?_, ?_, ?_, by decide, by decide, by decide, by decide⟩
  · unfold extractFirstName
    simp only [Fields_eq_tokens]
    cases htk : tokens fullName with
    | nil => exact absurd htk h
    | cons t ts => simp
  · intro hlen
    unfold extractLastName
    simp only [Fields_eq_tokens, gt_iff_lt, hlen, if_true]
    rw [List.getLast?_eq_getElem?, List.getD_eq_getElem?_getD]
    have hlt : (tokens fullName).length - 1 < (tokens fullName).length := by omega
    simp [List.getElem?_eq_getElem hlt]
  · intro hlen
    unfold extractLastName
    simp [Fields_eq_tokens, hlen]

/-- Witness for C8: the name "John Michael Doe" has three tokens. -/
theorem extractName_tokens_witness :
    tokens "John Michael Doe" ≠ [] ∧
    (tokens "John Michael Doe").head? = some (extractFirstName "John Michael Doe") :=
  ⟨by decide, (extractName_tokens "John Michael Doe" (by decide)).1⟩

theorem timeSub_nonpos_iff (t u : Int) : timeSub t u ≤ 0 ↔ t ≤ u := by
  unfold timeSub minDuration maxDuration
  split_ifs <;> omega

theorem busyWait_last (s : Scheduler) (clock : Nat → Int) (fuel reads n : Nat)
    (h : busyWait s clock fuel reads = some n) :
    reads < n ∧ s.CheckInTime ≤ clock (n - 1) := by
  induction fuel generalizing reads with
  | zero => simp [busyWait] at h
  | succ fuel ih =>
    rw [busyWait] at h
    split_ifs at h with hlt
    · have := ih (reads + 1) h
      omega
    · cases h
      exact ⟨by omega, by simpa using hlt⟩

theorem waitLoop_last (s : Scheduler) (clock : Nat → Int) (fuel reads : Nat) (r : WaitResult)
    (h : waitLoop s clock fuel reads = some r) :
    reads < r.reads ∧ s.CheckInTime ≤ clock (r.reads - 1) := by
  induction fuel generalizing reads with
  | zero => simp [waitLoop] at h
  | succ fuel ih =>
    rw [waitLoop] at h
    split_ifs at h with h0 h100
    · cases h
      exact ⟨by simp, by simpa using (timeSub_nonpos_iff _ _).1 h0⟩
    · rw [Option.map_eq_some'] at h
      obtain ⟨n, hn, rfl⟩ := h
      have := busyWait_last s clock fuel (reads + 1) n hn
      exact ⟨by simp only; omega, this.2⟩
    · have := ih (reads + 1) h
      omega

theorem busyWait_returns (s : Scheduler) (clock : Nat → Int) (m : Nat)
    (hm : s.CheckInTime ≤ clock m) (fuel reads : Nat) (hle : reads ≤ m) (hfuel : m - reads < fuel) :
    ∃ n, busyWait s clock fuel reads = some n ∧ n ≤ m + 1 := by
  induction fuel generalizing reads with
  | zero => omega
  | succ fuel ih =>
    rw [busyWait]
    split_ifs with hlt
    · have hne : reads ≠ m := fun heq => by subst heq; omega
      exact ih (reads + 1) (by omega) (by omega)
    · exact ⟨reads + 1, rfl, by omega⟩

theorem waitLoop_returns (s : Scheduler) (clock : Nat → Int) (m : Nat)
    (hm : s.CheckInTime ≤ clock m) (fuel reads : Nat) (hle : reads ≤ m) (hfuel : m - reads < fuel) :
    ∃ r, waitLoop s clock fuel reads = some r ∧ r.reads ≤ m + 1 := by
  induction fuel generalizing reads with
  | zero => omega
  | succ fuel ih =>
    rw [waitLoop]
    split_ifs with h0 h100
    · exact ⟨_, rfl, by simp only; omega⟩
    · have hne : reads ≠ m := fun heq => by
        subst heq; exact h0 ((timeSub_nonpos_iff _ _).2 hm)
      by_cases hf : fuel = 0
      · omega
      · obtain ⟨n, hn, hnm⟩ := busyWait_returns s clock m hm fuel (reads + 1) (by omega) (by omega)
        exact ⟨_, by rw [hn]; rfl, hnm⟩
    · have hne : reads ≠ m := fun heq => by
        subst heq; exact h0 ((timeSub_nonpos_iff _ _).2 hm)
      exact ih (reads + 1) (by omega) (by omega)

/-- C10: whenever `WaitUntilCheckIn` returns, whichever way it leaves, it has
read the clock and its last reading is at or after the target; and it does
return, within `n + 1` readings, as soon as reading `n` is at or after the
target. -/
theorem WaitUntilCheckIn_no_early_return (s : Scheduler) (clock : Nat → Int) :
    (∀ fuel r, WaitUntilCheckIn s clock fuel = some r →
      0 < r.reads ∧ s.CheckInTime ≤ clock (r.reads - 1)) ∧
    (∀ n, s.CheckInTime ≤ clock n →
      ∃ r, WaitUntilCheckIn s clock (n + 1) = some r ∧ r.reads ≤ n + 1) := by
  constructor
  · intro fuel r h
    unfold WaitUntilCheckIn at h
    simp only at h
    split_ifs at h with h0
    · cases h
      exact ⟨by simp, by simpa using (timeSub_nonpos_iff _ _).1 h0⟩
    · have := waitLoop_last s clock fuel 1 r h
      exact ⟨by omega, this.2⟩
  · intro n hn
    unfold WaitUntilCheckIn
    simp only
    split_ifs with h0
    · exact ⟨_, rfl, by simp⟩
    · have hne : n ≠ 0 := fun heq => by
        subst heq; exact h0 ((timeSub_nonpos_iff _ _).2 hn)
      exact waitLoop_returns s clock n hn (n + 1) 1 (by omega) (by omega)

/-- The three exits of `WaitUntilCheckIn` on the steady clock: a target in the
past, a target hit exactly by a coarse tick, and a target reached in the
busy-wait tail. -/
theorem WaitUntilCheckIn_exits :
    WaitUntilCheckIn { CheckInTime := 0, Verbose := false } (steadyClock 60000000) 5
      = some { exit := .alreadyOpen, reads := 1 } ∧
    WaitUntilCheckIn { CheckInTime := 1000000000, Verbose := false } (steadyClock 500000000) 5
      = some { exit := .nowOpen, reads := 3 } ∧
    WaitUntilCheckIn { CheckInTime := 200000000, Verbose := false } (steadyClock 60000000) 5
      = some { exit := .busyWaited, reads := 5 } := by
  refine ⟨by decide, by decide, by decide⟩

theorem retryLoop_zero (lib : GoLib) (c : Client) (attempt calls : Nat) (req : Request) (lastErr : Err) :
    retryLoop lib c 0 attempt calls req lastErr = (.error (.maxRetriesExceeded lastErr), []) := by
  rw [retryLoop]

theorem retryLoop_noRequest (lib : GoLib) (c : Client) (left attempt calls : Nat) (req : Request)
    (lastErr err : Err) (hreq : requestFor lib attempt req = .error err) :
    retryLoop lib c (left + 1) attempt calls req lastErr =
      ((retryLoop lib c left (attempt + 1) calls req err).1,
        sleepBefore attempt ++ (retryLoop lib c left (attempt + 1) calls req err).2) := by
  rw [retryLoop]
  simp only [hreq]

theorem retryLoop_failure (lib : GoLib) (c : Client) (left attempt calls : Nat) (req rq : Request)
    (lastErr : Err) (cause : String) (n : Nat) (hreq : requestFor lib attempt req = .ok rq)
    (hout : c.httpClient calls rq = .failure cause n) :
    retryLoop lib c (left + 1) attempt calls req lastErr =
      ((retryLoop lib c left (attempt + 1) (calls + 1) (rq.afterRead n) (.transport cause)).1,
        sleepBefore attempt ++ .exchange rq (.failure cause n) ::
          (retryLoop lib c left (attempt + 1) (calls + 1) (rq.afterRead n) (.transport cause)).2) := by
  rw [retryLoop]
  simp only [hreq, hout]

theorem retryLoop_serverError (lib : GoLib) (c : Client) (left attempt calls : Nat) (req rq : Request)
    (lastErr : Err) (resp : Response) (n : Nat) (hreq : requestFor lib attempt req = .ok rq)
    (hout : c.httpClient calls rq = .response resp n) (h500 : resp.StatusCode ≥ 500) :
    retryLoop lib c (left + 1) attempt calls req lastErr =
      ((retryLoop lib c left (attempt + 1) (calls + 1) (rq.afterRead n)
          (.serverError resp.StatusCode)).1,
        sleepBefore attempt ++ .exchange rq (.response resp n) ::
          (retryLoop lib c left (attempt + 1) (calls + 1) (rq.afterRead n)
            (.serverError resp.StatusCode)).2) := by
  rw [retryLoop]
  simp only [hreq, hout, h500, if_true]

theorem retryLoop_accepted (lib : GoLib) (c : Client) (left attempt calls : Nat) (req rq : Request)
    (lastErr : Err) (resp : Response) (n : Nat) (hreq : requestFor lib attempt req = .ok rq)
    (hout : c.httpClient calls rq = .response resp n) (h500 : ¬ resp.StatusCode ≥ 500) :
    retryLoop lib c (left + 1) attempt calls req lastErr =
      (.ok resp, sleepBefore attempt ++ [.exchange rq (.response resp n)]) := by
  rw [retryLoop]
  simp only [hreq, hout, h500, if_false]

theorem acceptedIsLast_cons (res : Except Err Response) (events : List Event) (e : Event)
    (h : AcceptedIsLast res events)
    (he : ∀ rq resp k, e = .exchange rq (.response resp k) → ¬ resp.StatusCode < 500) :
    AcceptedIsLast res (e :: events) := by
  intro i rq resp k hi hlt
  cases i with
  | zero =>
    simp only [List.getElem?_cons_zero, Option.some.injEq] at hi
    exact absurd hlt (he rq resp k hi)
  | succ i =>
    simp only [List.getElem?_cons_succ] at hi
    obtain ⟨h1, h2⟩ := h i rq resp k hi hlt
    exact ⟨h1, by simp [h2]⟩

theorem acceptedIsLast_sleepBefore (res : Except Err Response) (events : List Event)
    (attempt : Nat) (h : AcceptedIsLast res events) :
    AcceptedIsLast res (sleepBefore attempt ++ events) := by
  unfold sleepBefore
  split_ifs
  · exact acceptedIsLast_cons res events _ h (fun rq resp k he => by cases he)
  · simpa using h

theorem acceptedIsLast_single (rq : Request) (resp : Response) (k : Nat) :
    AcceptedIsLast (.ok resp) [.exchange rq (.response resp k)] := by
  intro i rq' resp' k' hi _
  cases i with
  | zero =>
    simp only [List.getElem?_cons_zero, Option.some.injEq, Event.exchange.injEq,
      Outcome.response.injEq] at hi
    obtain ⟨-, rfl, -⟩ := hi
    exact ⟨rfl, rfl⟩
  | succ i => simp at hi

theorem retryLoop_acceptedIsLast (lib : GoLib) (c : Client) (left attempt calls : Nat) (req : Request)
    (lastErr : Err) :
    AcceptedIsLast (retryLoop lib c left attempt calls req lastErr).1
      (retryLoop lib c left attempt calls req lastErr).2 := by
  induction left generalizing attempt calls req lastErr with
  | zero =>
    intro i rq resp k hi
    simp [retryLoop_zero] at hi
  | succ left ih =>
    cases hreq : requestFor lib attempt req with
    | error err =>
      rw [retryLoop_noRequest lib c left attempt calls req lastErr err hreq]
      exact acceptedIsLast_sleepBefore _ _ _ (ih _ _ _ _)
    | ok rq =>
      cases hout : c.httpClient calls rq with
      | failure cause n =>
        rw [retryLoop_failure lib c left attempt calls req rq lastErr cause n hreq hout]
        refine acceptedIsLast_sleepBefore _ _ _ (acceptedIsLast_cons _ _ _ (ih _ _ _ _) ?_)
        intro rq resp k he
        cases he
      | response resp n =>
        by_cases h500 : resp.StatusCode ≥ 500
        · rw [retryLoop_serverError lib c left attempt calls req rq lastErr resp n hreq hout h500]
          refine acceptedIsLast_sleepBefore _ _ _ (acceptedIsLast_cons _ _ _ (ih _ _ _ _) ?_)
          intro rq resp k he
          cases he
          omega
        · rw [retryLoop_accepted lib c left attempt calls req rq lastErr resp n hreq hout h500]
          exact acceptedIsLast_sleepBefore _ _ _ (acceptedIsLast_single _ _ _)

theorem getLast?_append_cons {α : Type} (l m : List α) (a : α) :
    (l ++ a :: m).getLast? = (a :: m).getLast? := by
  rw [List.getLast?_append]
  simp [List.getLast?_cons]

theorem retryLoop_ok (lib : GoLib) (c : Client) (left attempt calls : Nat) (req : Request)
    (lastErr : Err) (resp : Response)
    (h : (retryLoop lib c left attempt calls req lastErr).1 = .ok resp) :
    resp.StatusCode < 500 ∧ ∃ rq k,
      (retryLoop lib c left attempt calls req lastErr).2.getLast? =
        some (.exchange rq (.response resp k)) := by
  induction left generalizing attempt calls req lastErr with
  | zero => simp [retryLoop_zero] at h
  | succ left ih =>
    cases hreq : requestFor lib attempt req with
    | error err =>
      rw [retryLoop_noRequest lib c left attempt calls req lastErr err hreq] at h ⊢
      obtain ⟨h1, rq, k, h2⟩ := ih _ _ _ _ h
      exact ⟨h1, rq, k, by simp only [List.getLast?_append, h2]; rfl⟩
    | ok rq =>
      cases hout : c.httpClient calls rq with
      | failure cause n =>
        rw [retryLoop_failure lib c left attempt calls req rq lastErr cause n hreq hout] at h ⊢
        obtain ⟨h1, rq', k, h2⟩ := ih _ _ _ _ h
        refine ⟨h1, rq', k, ?_⟩
        simp only [getLast?_append_cons, List.getLast?_cons, h2]
        rfl
      | response resp' n =>
        by_cases h500 : resp'.StatusCode ≥ 500
        · rw [retryLoop_serverError lib c left attempt calls req rq lastErr resp' n hreq hout h500]
            at h ⊢
          obtain ⟨h1, rq', k, h2⟩ := ih _ _ _ _ h
          refine ⟨h1, rq', k, ?_⟩
          simp only [getLast?_append_cons, List.getLast?_cons, h2]
          rfl
        · rw [retryLoop_accepted lib c left attempt calls req rq lastErr resp' n hreq hout h500]
            at h ⊢
          simp only [Except.ok.injEq] at h
          subst h
          refine ⟨by omega, rq, n, ?_⟩
          simp [getLast?_append_cons]

theorem exchanges_append (l m : List Event) : exchanges (l ++ m) = exchanges l ++ exchanges m := by
  induction l with
  | nil => rfl
  | cons e l ih => cases e <;> simp [exchanges, ih]

theorem sleeps_append (l m : List Event) : sleeps (l ++ m) = sleeps l ++ sleeps m := by
  induction l with
  | nil => rfl
  | cons e l ih => cases e <;> simp [sleeps, ih]

theorem exchanges_sleepBefore (attempt : Nat) : exchanges (sleepBefore attempt) = [] := by
  unfold sleepBefore
  split_ifs <;> rfl

theorem validMethod_ne_empty (method : String) (h : validMethod method = true) : method ≠ "" := by
  intro h0
  subst h0
  revert h
  decide

theorem cloneForRetry_wellFormed (lib : GoLib) (req : Request) (h : req.wellFormed lib) :
    cloneForRetry lib req = .ok req := by
  obtain ⟨hm, hu⟩ := h
  have hne := validMethod_ne_empty req.Method hm
  unfold cloneForRetry NewRequest
  simp only [hne, if_false, hm, Bool.not_true, hu]
  cases req with
  | mk m u hd b => cases b <;> rfl

theorem requestFor_wellFormed (lib : GoLib) (attempt : Nat) (req : Request) (h : req.wellFormed lib) :
    requestFor lib attempt req = .ok req := by
  unfold requestFor
  split_ifs
  · exact cloneForRetry_wellFormed lib req h
  · rfl

theorem afterRead_wellFormed (lib : GoLib) (req : Request) (n : Nat) (h : req.wellFormed lib) :
    (req.afterRead n).wellFormed lib := h

theorem retryLoop_exhausts (lib : GoLib) (c : Client) (hfail : ∀ i rq, (c.httpClient i rq).retryable = true)
    (left attempt calls : Nat) (req : Request) (lastErr : Err) (hwf : req.wellFormed lib) :
    (exchanges (retryLoop lib c left attempt calls req lastErr).2).length = left ∧
    ∃ e, (retryLoop lib c left attempt calls req lastErr).1 = .error (.maxRetriesExceeded e) ∧
      (left = 0 → e = lastErr) ∧
      (0 < left → ∃ rq,
        (exchanges (retryLoop lib c left attempt calls req lastErr).2).getLast? =
          some (rq, c.httpClient (calls + left - 1) rq) ∧
        e = (c.httpClient (calls + left - 1) rq).lastErr) := by
  induction left generalizing attempt calls req lastErr with
  | zero =>
    rw [retryLoop_zero]
    exact ⟨rfl, lastErr, rfl, fun _ => rfl, fun h => absurd h (by omega)⟩
  | succ left ih =>
    have hreq := requestFor_wellFormed lib attempt req hwf
    have key : ∀ (out : Outcome), c.httpClient calls req = out →
        retryLoop lib c (left + 1) attempt calls req lastErr =
          ((retryLoop lib c left (attempt + 1) (calls + 1) (req.afterRead out.bodyRead) out.lastErr).1,
            sleepBefore attempt ++ .exchange req out ::
              (retryLoop lib c left (attempt + 1) (calls + 1) (req.afterRead out.bodyRead)
                out.lastErr).2) := by
      intro out hout
      cases out with
      | failure cause n =>
        exact retryLoop_failure lib c left attempt calls req req lastErr cause n hreq hout
      | response resp n =>
        have h500 : resp.StatusCode ≥ 500 := by
          have := hfail calls req
          rw [hout] at this
          simpa [Outcome.retryable] using this
        exact retryLoop_serverError lib c left attempt calls req req lastErr resp n hreq hout h500
    rw [key _ rfl]
    obtain ⟨hlen, e, he, h0, hpos⟩ :=
      ih (attempt + 1) (calls + 1) (req.afterRead (c.httpClient calls req).bodyRead)
        (c.httpClient calls req).lastErr (afterRead_wellFormed lib _ _ hwf)
    simp only [exchanges_append, exchanges_sleepBefore, List.nil_append, exchanges,
      List.length_cons, hlen, true_and]
    refine ⟨e, he, fun h => absurd h (by omega), fun _ => ?_⟩
    by_cases hl : left = 0
    · subst hl
      refine ⟨req, ?_, ?_⟩
      · have hnil : exchanges (retryLoop lib c 0 (attempt + 1) (calls + 1)
            (req.afterRead (c.httpClient calls req).bodyRead) (c.httpClient calls req).lastErr).2
            = [] := List.eq_nil_of_length_eq_zero hlen
        rw [hnil]
        rfl
      · exact h0 rfl
    · obtain ⟨rq, hlast, hrq⟩ := hpos (by omega)
      have hidx : calls + (left + 1) - 1 = calls + 1 + left - 1 := by omega
      refine ⟨rq, ?_, ?_⟩
      · rw [hidx, List.getLast?_cons, hlast]
        rfl
      · rw [hidx]
        exact hrq

theorem sleeps_sleepBefore (attempt : Nat) :
    sleeps (sleepBefore attempt) = if attempt > 0 then [backoff attempt] else [] := by
  unfold sleepBefore
  split_ifs <;> rfl

theorem sleeps_shift (attempt : Nat) (rest : List Int)
    (ih : ∀ j d, rest[j]? = some d → d = backoff (max (attempt + 1) 1 + j)) :
    ∀ j d, ((if attempt > 0 then [backoff attempt] else []) ++ rest)[j]? = some d →
      d = backoff (max attempt 1 + j) := by
  intro j d hj
  by_cases hpos : attempt > 0
  · rw [if_pos hpos] at hj
    cases j with
    | zero =>
      simp only [List.singleton_append, List.getElem?_cons_zero, Option.some.injEq] at hj
      rw [← hj, Nat.max_eq_left hpos]
      rfl
    | succ j =>
      simp only [List.singleton_append, List.getElem?_cons_succ] at hj
      have := ih j d hj
      rw [this]
      congr 1
      omega
  · rw [if_neg hpos, List.nil_append] at hj
    have := ih j d hj
    rw [this]
    congr 1
    omega

theorem retryLoop_sleeps (lib : GoLib) (c : Client) (left attempt calls : Nat) (req : Request) (lastErr : Err) :
    ∀ j d, (sleeps (retryLoop lib c left attempt calls req lastErr).2)[j]? = some d →
      d = backoff (max attempt 1 + j) := by
  induction left generalizing attempt calls req lastErr with
  | zero =>
    intro j d hj
    simp [retryLoop_zero, sleeps] at hj
  | succ left ih =>
    cases hreq : requestFor lib attempt req with
    | error err =>
      rw [retryLoop_noRequest lib c left attempt calls req lastErr err hreq]
      simp only [sleeps_append, sleeps_sleepBefore]
      exact sleeps_shift attempt _ (ih _ _ _ _)
    | ok rq =>
      cases hout : c.httpClient calls rq with
      | failure cause n =>
        rw [retryLoop_failure lib c left attempt calls req rq lastErr cause n hreq hout]
        simp only [sleeps_append, sleeps_sleepBefore, sleeps]
        exact sleeps_shift attempt _ (ih _ _ _ _)
      | response resp n =>
        by_cases h500 : resp.StatusCode ≥ 500
        · rw [retryLoop_serverError lib c left attempt calls req rq lastErr resp n hreq hout h500]
          simp only [sleeps_append, sleeps_sleepBefore, sleeps]
          exact sleeps_shift attempt _ (ih _ _ _ _)
        · rw [retryLoop_accepted lib c left attempt calls req rq lastErr resp n hreq hout h500]
          simp only [sleeps_append, sleeps_sleepBefore, sleeps]
          exact sleeps_shift attempt _ (fun j d hj => by simp at hj)

theorem wrapInt64_of_range (x : Int) (h1 : -9223372036854775808 ≤ x)
    (h2 : x < 9223372036854775808) : wrapInt64 x = x := by
  unfold wrapInt64
  omega

theorem backoff_small (k : Nat) (h1 : 1 ≤ k) (h2 : k ≤ 34) : backoff k = 2 ^ (k - 1) * Second := by
  have hpow : (2 : Int) ^ (k - 1) ≤ 2 ^ 33 :=
    pow_le_pow_right₀ (by norm_num) (by omega)
  have hpos : (0 : Int) < 2 ^ (k - 1) := by positivity
  have h33 : (2 : Int) ^ 33 = 8589934592 := by norm_num
  rw [h33] at hpow
  unfold backoff Second
  rw [wrapInt64_of_range (2 ^ (k - 1)) (by omega) (by omega)]
  rw [wrapInt64_of_range _ (by omega) (by omega)]

theorem doWithRetry_cons (lib : GoLib) (c : Client) (calls : Nat) (req : Request) (maxRetries : Int)
    (hmax : 1 ≤ maxRetries) :
    ∃ rest, (doWithRetry lib c calls req maxRetries).2 =
      .exchange req (c.httpClient calls req) :: rest := by
  unfold doWithRetry
  obtain ⟨left, hleft⟩ : ∃ left, maxRetries.toNat = left + 1 := ⟨maxRetries.toNat - 1, by omega⟩
  rw [hleft]
  have hreq : requestFor lib 0 req = .ok req := rfl
  cases hout : c.httpClient calls req with
  | failure cause n =>
    rw [retryLoop_failure lib c left 0 calls req req .nil cause n hreq hout]
    exact ⟨_, rfl⟩
  | response resp n =>
    by_cases h500 : resp.StatusCode ≥ 500
    · rw [retryLoop_serverError lib c left 0 calls req req .nil resp n hreq hout h500]
      exact ⟨_, rfl⟩
    · rw [retryLoop_accepted lib c left 0 calls req req .nil resp n hreq hout h500]
      exact ⟨_, rfl⟩

theorem lookupReservation_events (lib : GoLib) (c : Client) (calls : Nat) (reservation : Reservation)
    (req : Request) (hreq : lookupRequest lib reservation = .ok req) :
    (lookupReservation lib c calls reservation).2 = (doWithRetry lib c calls req 3).2 := by
  unfold lookupReservation
  simp only [hreq]
  split
  · rfl
  · split
    · rfl
    · split_ifs
      · rfl
      · split <;> rfl

theorem performCheckIn_events (lib : GoLib) (c : Client) (calls : Nat) (lookup : ReservationLookupResponse)
    (req : Request) (hreq : checkInRequest lib lookup = .ok req) :
    (performCheckIn lib c calls lookup).2 = (doWithRetry lib c calls req 3).2 := by
  unfold performCheckIn
  simp only [hreq]
  split
  · rfl
  · split
    · rfl
    · split_ifs
      · rfl
      · split <;> rfl

theorem CheckIn_of_resolved (lib : GoLib) (c : Client) (calls : Nat) (reservation : Reservation)
    (lookup : ReservationLookupResponse)
    (hres : (lookupReservation lib c calls reservation).1 = .ok lookup) :
    (CheckIn lib c calls reservation).2 =
      (lookupReservation lib c calls reservation).2 ++
        (performCheckIn lib c (calls + (exchanges (lookupReservation lib c calls reservation).2).length)
          lookup).2 ∧
    ∀ confirm,
      (performCheckIn lib c (calls + (exchanges (lookupReservation lib c calls reservation).2).length)
        lookup).1 = .ok confirm →
      (CheckIn lib c calls reservation).1 = .ok (extractBoardingPasses confirm) := by
  unfold CheckIn
  simp only [hres]
  constructor
  · split <;> rfl
  · intro confirm hconfirm
    simp only [hconfirm]

theorem retryLoop_exchanges_faithful (lib : GoLib) (c : Client) (left attempt calls : Nat) (req : Request)
    (lastErr : Err) :
    ∀ j rq out, (exchanges (retryLoop lib c left attempt calls req lastErr).2)[j]? = some (rq, out) →
      out = c.httpClient (calls + j) rq := by
  induction left generalizing attempt calls req lastErr with
  | zero =>
    intro j rq out hj
    simp [retryLoop_zero, exchanges] at hj
  | succ left ih =>
    have step : ∀ (rq0 : Request) (out0 : Outcome) (rest : List Event),
        c.httpClient calls rq0 = out0 →
        (∀ j rq out, (exchanges rest)[j]? = some (rq, out) → out = c.httpClient (calls + 1 + j) rq) →
        ∀ j rq out, (exchanges (sleepBefore attempt ++ .exchange rq0 out0 :: rest))[j]? =
          some (rq, out) → out = c.httpClient (calls + j) rq := by
      intro rq0 out0 rest h0 hrest j rq out hj
      rw [exchanges_append, exchanges_sleepBefore, List.nil_append] at hj
      cases j with
      | zero =>
        simp only [exchanges, List.getElem?_cons_zero, Option.some.injEq, Prod.mk.injEq] at hj
        obtain ⟨rfl, rfl⟩ := hj
        exact h0.symm
      | succ j =>
        simp only [exchanges, List.getElem?_cons_succ] at hj
        have := hrest j rq out hj
        rw [this]
        congr 1
        omega
    cases hreq : requestFor lib attempt req with
    | error err =>
      rw [retryLoop_noRequest lib c left attempt calls req lastErr err hreq]
      intro j rq out hj
      rw [exchanges_append, exchanges_sleepBefore, List.nil_append] at hj
      exact ih _ _ _ _ j rq out hj
    | ok rq0 =>
      cases hout : c.httpClient calls rq0 with
      | failure cause n =>
        rw [retryLoop_failure lib c left attempt calls req rq0 lastErr cause n hreq hout]
        exact step rq0 _ _ hout (ih _ _ _ _)
      | response resp n =>
        by_cases h500 : resp.StatusCode ≥ 500
        · rw [retryLoop_serverError lib c left attempt calls req rq0 lastErr resp n hreq hout h500]
          exact step rq0 _ _ hout (ih _ _ _ _)
        · rw [retryLoop_accepted lib c left attempt calls req rq0 lastErr resp n hreq hout h500]
          exact step rq0 _ [] hout (fun j rq out hj => by simp [exchanges] at hj)

theorem NewRequest_ok (lib : GoLib) (method url : String) (body : Option (List Char))
    (req : Request) (h : NewRequest lib method url body = .ok req) :
    req.Method = (if method = "" then "GET" else method) ∧
    validMethod req.Method = true ∧
    lib.requestURL url = .ok req.URL ∧ req.Body = body := by
  unfold NewRequest at h
  simp only at h
  generalize (if method = "" then "GET" else method) = m at h ⊢
  split_ifs at h with hv
  cases hu : lib.requestURL url with
  | error err => rw [hu] at h; cases h
  | ok u =>
    rw [hu] at h
    simp only [Except.ok.injEq] at h
    subst h
    exact ⟨rfl, by simpa using hv, rfl, rfl⟩

theorem NewRequest_wellFormed (lib : GoLib) (method url : String) (body : Option (List Char))
    (req : Request) (h : NewRequest lib method url body = .ok req) : req.wellFormed lib := by
  obtain ⟨-, hv, hu, -⟩ := NewRequest_ok lib method url body req h
  exact ⟨hv, lib.requestURL_again url req.URL hu⟩

theorem lookupRequest_wellFormed (lib : GoLib) (reservation : Reservation) (req : Request)
    (h : lookupRequest lib reservation = .ok req) : req.wellFormed lib := by
  unfold lookupRequest at h
  simp only at h
  split at h
  · cases h
  · rename_i r hr
    simp only [Except.ok.injEq] at h
    subst h
    exact NewRequest_wellFormed lib _ _ _ r hr

theorem checkInRequest_wellFormed (lib : GoLib) (lookup : ReservationLookupResponse) (req : Request)
    (h : checkInRequest lib lookup = .ok req) : req.wellFormed lib := by
  unfold checkInRequest at h
  simp only at h
  split at h
  · cases h
  · rename_i r hr
    simp only [Except.ok.injEq] at h
    subst h
    exact NewRequest_wellFormed lib _ _ _ r hr

theorem cloneForRetry_ok (lib : GoLib) (req r : Request) (h : cloneForRetry lib req = .ok r) :
    r.wellFormed lib ∧ ∀ n, cloneForRetry lib (req.afterRead n) = .ok (r.afterRead n) := by
  unfold cloneForRetry at h
  cases hnew : NewRequest lib req.Method req.URL none with
  | error err => rw [hnew] at h; cases h
  | ok newReq =>
    have hwf := NewRequest_wellFormed lib _ _ _ newReq hnew
    obtain ⟨hm, -, hu, hb⟩ := NewRequest_ok lib _ _ _ newReq hnew
    rw [hnew] at h
    simp only at h
    have hr : r = { newReq with Header := req.Header, Body := req.Body } := by
      cases hbody : req.Body with
      | none =>
        rw [hbody] at h
        simp only [Except.ok.injEq] at h
        rw [← h]
        cases newReq
        simp only [Request.mk.injEq, true_and]
        exact hb
      | some body =>
        rw [hbody] at h
        simp only [Except.ok.injEq] at h
        rw [← h]
    subst hr
    refine ⟨hwf, fun n => ?_⟩
    unfold cloneForRetry
    have : NewRequest lib (req.afterRead n).Method (req.afterRead n).URL none = .ok newReq := hnew
    rw [this]
    simp only [Request.afterRead]
    cases hbody : req.Body with
    | none => simp [hb]
    | some body => rfl

theorem retryLoop_congr_clone (lib : GoLib) (c : Client) (left attempt calls : Nat) (req r : Request)
    (lastErr : Err) (hpos : 0 < attempt) (h : cloneForRetry lib req = .ok r) :
    retryLoop lib c left attempt calls req lastErr = retryLoop lib c left attempt calls r lastErr := by
  cases left with
  | zero => rw [retryLoop_zero, retryLoop_zero]
  | succ left =>
    have h1 : requestFor lib attempt req = .ok r := by
      unfold requestFor
      rw [if_pos hpos, h]
    have h2 : requestFor lib attempt r = .ok r :=
      requestFor_wellFormed lib attempt r (cloneForRetry_ok lib req r h).1
    cases hout : c.httpClient calls r with
    | failure cause n =>
      rw [retryLoop_failure lib c left attempt calls req r lastErr cause n h1 hout,
        retryLoop_failure lib c left attempt calls r r lastErr cause n h2 hout]
    | response resp n =>
      by_cases h500 : resp.StatusCode ≥ 500
      · rw [retryLoop_serverError lib c left attempt calls req r lastErr resp n h1 hout h500,
          retryLoop_serverError lib c left attempt calls r r lastErr resp n h2 hout h500]
      · rw [retryLoop_accepted lib c left attempt calls req r lastErr resp n h1 hout h500,
          retryLoop_accepted lib c left attempt calls r r lastErr resp n h2 hout h500]

/-- C1: in every run of `doWithRetry`, whatever the transport answers, an
exchange answered with a status below 500 is the last event of the run and its
response is returned with no error; a returned response is always that of the
last exchange; the exchanges of the run are the answers of the transport, in
order. In particular a 4xx answer to the first Resolve request makes
`lookupReservation` fail after exactly one request. -/
theorem doWithRetry_stops_at_accepted (lib : GoLib) (c : Client) (calls : Nat) :
    (∀ (req : Request) (maxRetries : Int) (i : Nat) (rq : Request) (resp : Response) (k : Nat),
      (doWithRetry lib c calls req maxRetries).2[i]? = some (.exchange rq (.response resp k)) →
      resp.StatusCode < 500 →
      (doWithRetry lib c calls req maxRetries).1 = .ok resp ∧
        i + 1 = (doWithRetry lib c calls req maxRetries).2.length) ∧
    (∀ (req : Request) (maxRetries : Int) (resp : Response),
      (doWithRetry lib c calls req maxRetries).1 = .ok resp →
      resp.StatusCode < 500 ∧ ∃ rq k,
        (doWithRetry lib c calls req maxRetries).2.getLast? =
          some (.exchange rq (.response resp k))) ∧
    (∀ (req : Request) (maxRetries : Int) (j : Nat) (rq : Request) (out : Outcome),
      (exchanges (doWithRetry lib c calls req maxRetries).2)[j]? = some (rq, out) →
      out = c.httpClient (calls + j) rq) ∧
    (∀ (reservation : Reservation) (req : Request) (resp : Response) (k : Nat),
      lookupRequest lib reservation = .ok req →
      c.httpClient calls req = .response resp k →
      400 ≤ resp.StatusCode → resp.StatusCode < 500 →
      (lookupReservation lib c calls reservation).2 = [.exchange req (.response resp k)] ∧
      ∃ err, (lookupReservation lib c calls reservation).1 = .error err) := by
  refine ⟨fun req maxRetries => retryLoop_acceptedIsLast lib c _ 0 calls req .nil,
    fun req maxRetries resp h => retryLoop_ok lib c _ 0 calls req .nil resp h,
    fun req maxRetries => retryLoop_exchanges_faithful lib c _ 0 calls req .nil, ?_⟩
  intro reservation req resp k hreq hout h400 h500
  have hrun : doWithRetry lib c calls req 3 = (.ok resp, [.exchange req (.response resp k)]) :=
    retryLoop_accepted lib c 2 0 calls req req .nil resp k rfl hout (by omega)
  unfold lookupReservation
  simp only [hreq, hrun]
  have hne : resp.StatusCode ≠ 200 := by omega
  cases hb : resp.BodyErr with
  | some cause => simp
  | none => simp [hne]

/-- Witness for C1: a 404 answer to the Resolve request of the sample
reservation. -/
theorem doWithRetry_stops_at_accepted_witness :
    ∃ req err, (lookupReservation plainGo notFoundServer 0 sampleReservation).2 =
        [.exchange req (.response { StatusCode := 404, Body := [], BodyErr := none } 0)] ∧
      (lookupReservation plainGo notFoundServer 0 sampleReservation).1 = .error err := by
  obtain ⟨req, hreq⟩ : ∃ req, lookupRequest plainGo sampleReservation = .ok req := ⟨_, rfl⟩
  obtain ⟨h1, err, h2⟩ := (doWithRetry_stops_at_accepted plainGo notFoundServer 0).2.2.2
    sampleReservation req { StatusCode := 404, Body := [], BodyErr := none } 0 hreq
    (by rw [← Except.ok.inj hreq]; rfl) (by decide) (by decide)
  exact ⟨req, err, h1, h2⟩

/-- C2: for `maxRetries >= 1`, when every `Do` call ends in a transport failure
or a 5xx response, and the retries can be built at all (`http.NewRequest` takes
the method and URL of the request, as it does for every request it has built
itself), `doWithRetry` submits exactly `maxRetries` requests and returns no
response but the error "max retries exceeded" wrapping the cause of the last
attempt: the transport's error, or "server error" with the status of the last
5xx response. -/
theorem doWithRetry_exhausts (lib : GoLib) (c : Client) (calls : Nat) (req : Request) (maxRetries : Int)
    (hmax : 1 ≤ maxRetries) (hclone : 2 ≤ maxRetries → ∃ r, cloneForRetry lib req = .ok r)
    (hfail : ∀ i rq, (c.httpClient i rq).retryable = true) :
    ((exchanges (doWithRetry lib c calls req maxRetries).2).length : Int) = maxRetries ∧
    ∃ rq out,
      (exchanges (doWithRetry lib c calls req maxRetries).2).getLast? = some (rq, out) ∧
      out = c.httpClient (calls + maxRetries.toNat - 1) rq ∧
      (∀ cause n, out = .failure cause n →
        (doWithRetry lib c calls req maxRetries).1 = .error (.maxRetriesExceeded (.transport cause))) ∧
      (∀ resp n, out = .response resp n →
        (doWithRetry lib c calls req maxRetries).1 =
          .error (.maxRetriesExceeded (.serverError resp.StatusCode))) := by
  obtain ⟨left, hleft⟩ : ∃ left, maxRetries.toNat = left + 1 := ⟨maxRetries.toNat - 1, by omega⟩
  have hreq : requestFor lib 0 req = .ok req := rfl
  have key : doWithRetry lib c calls req maxRetries =
      ((retryLoop lib c left 1 (calls + 1) (req.afterRead (c.httpClient calls req).bodyRead)
          (c.httpClient calls req).lastErr).1,
        .exchange req (c.httpClient calls req) ::
          (retryLoop lib c left 1 (calls + 1) (req.afterRead (c.httpClient calls req).bodyRead)
            (c.httpClient calls req).lastErr).2) := by
    unfold doWithRetry
    rw [hleft]
    cases hout : c.httpClient calls req with
    | failure cause n =>
      exact retryLoop_failure lib c left 0 calls req req .nil cause n hreq hout
    | response resp n =>
      have h500 : resp.StatusCode ≥ 500 := by
        have := hfail calls req
        rw [hout] at this
        simpa [Outcome.retryable] using this
      exact retryLoop_serverError lib c left 0 calls req req .nil resp n hreq hout h500
  by_cases hl : left = 0
  · subst hl
    rw [key, retryLoop_zero]
    refine ⟨by simp only [exchanges, List.length_singleton]; omega, req, _, rfl, ?_, ?_, ?_⟩
    · have hidx : calls + maxRetries.toNat - 1 = calls := by omega
      rw [hidx]
    · intro cause n hout
      rw [hout]
      rfl
    · intro resp n hout
      rw [hout]
      rfl
  · obtain ⟨r, hr⟩ := hclone (by omega)
    obtain ⟨hwf, hafter⟩ := cloneForRetry_ok lib req r hr
    rw [key, retryLoop_congr_clone lib c left 1 (calls + 1) _ _ _ (by decide)
      (hafter (c.httpClient calls req).bodyRead)]
    obtain ⟨hlen, e, he, -, hpos⟩ := retryLoop_exhausts lib c hfail left 1 (calls + 1)
      (r.afterRead (c.httpClient calls req).bodyRead) (c.httpClient calls req).lastErr
      (afterRead_wellFormed lib _ _ hwf)
    obtain ⟨rq, hlast, hrq⟩ := hpos (by omega)
    have hidx : calls + maxRetries.toNat - 1 = calls + 1 + left - 1 := by omega
    refine ⟨by simp only [exchanges, List.length_cons, hlen]; omega, rq, _, ?_, rfl, ?_, ?_⟩
    · simp only [exchanges]
      rw [List.getLast?_cons, hlast, hidx]
      rfl
    · intro cause n hout
      rw [hidx] at hout
      simp only [he, hrq, hout]
      rfl
    · intro resp n hout
      rw [hidx] at hout
      simp only [he, hrq, hout]
      rfl

/-- Witness for C2: three attempts against a server that always answers 503. -/
theorem doWithRetry_exhausts_witness :
    ((exchanges (doWithRetry plainGo unavailable 0 probeRequest 3).2).length : Int) = 3 ∧
    (doWithRetry plainGo unavailable 0 probeRequest 3).1 =
      .error (.maxRetriesExceeded (.serverError 503)) := by
  obtain ⟨hlen, rq, out, -, hout, -, hresp⟩ :=
    doWithRetry_exhausts plainGo unavailable 0 probeRequest 3 (by decide) (fun _ => ⟨_, rfl⟩)
      (fun _ _ => rfl)
  exact ⟨hlen, hresp { StatusCode := 503, Body := [], BodyErr := none } _ hout⟩

/-- C3 (failing input): the Act request for POST /x with body A, B, C against a
server that answers 503 after reading the request. The first attempt submits
the JSON body; both retries keep method, URL and headers but submit an empty
body, because the clone reads the body reader the first attempt has drained. -/
theorem retry_submits_drained_body :
    ((exchanges (performCheckIn plainGo unavailable 0 sampleLookup).2).map fun x => x.1.Body) =
      [some (jsonMarshalBody { FirstName := "A", LastName := "B", RecordLocator := "C" }),
        some [], some []] ∧
    jsonMarshalBody { FirstName := "A", LastName := "B", RecordLocator := "C" } ≠ [] ∧
    ((exchanges (performCheckIn plainGo unavailable 0 sampleLookup).2).map fun x => (x.1.Method, x.1.URL)) =
      [("POST", "https://mobile.southwest.com/x"), ("POST", "https://mobile.southwest.com/x"),
        ("POST", "https://mobile.southwest.com/x")] := by
  refine ⟨by decide!, by decide!, by decide!⟩

/-- C9 (counterexample): with 36 attempts against a server that always answers
503, the delay slept before attempt 35 is negative, not 2^34 seconds: the
product overflows `int64`. -/
theorem backoff_overflows_at_attempt_35 :
    (sleeps (doWithRetry plainGo unavailable 0 probeRequest 36).2)[34]? = some (-1266874889709551616) ∧
    (-1266874889709551616 : Int) ≠ 2 ^ 34 * Second := by
  refine ⟨by decide!, by decide⟩

/-- C9 (amended): attempt 0 is made with no delay, and for every attempt index
k from 1 to 34 the delay slept before attempt k is exactly 2^(k-1) seconds, in
nanoseconds. -/
theorem doWithRetry_backoff (lib : GoLib) (c : Client) (calls : Nat) (req : Request) (maxRetries : Int) :
    (1 ≤ maxRetries → (doWithRetry lib c calls req maxRetries).2.head? =
      some (.exchange req (c.httpClient calls req))) ∧
    (∀ k d, 1 ≤ k → k ≤ 34 →
      (sleeps (doWithRetry lib c calls req maxRetries).2)[k - 1]? = some d →
      d = 2 ^ (k - 1) * Second) := by
  refine ⟨fun hmax => ?_, fun k d h1 h34 hk => ?_⟩
  · obtain ⟨rest, hrest⟩ := doWithRetry_cons lib c calls req maxRetries hmax
    rw [hrest]
    rfl
  · have := retryLoop_sleeps lib c maxRetries.toNat 0 calls req .nil (k - 1) d hk
    have hidx : max 0 1 + (k - 1) = k := by
      rw [Nat.max_eq_right (Nat.zero_le 1)]
      omega
    rw [this, hidx]
    exact backoff_small k h1 h34

/-- Witness for C9 (amended): three attempts against a server that always
answers 503: an exchange, 1s of sleep, an exchange, 2s of sleep, an exchange. -/
theorem doWithRetry_backoff_witness :
    ((doWithRetry plainGo unavailable 0 probeRequest 3).2.map fun e =>
      match e with
      | .sleep d => some d
      | .exchange _ _ => none) = [none, some 1000000000, none, some 2000000000, none] ∧
    ∀ d, (sleeps (doWithRetry plainGo unavailable 0 probeRequest 3).2)[2 - 1]? = some d →
      d = 2 ^ (2 - 1) * Second :=
  ⟨by decide!, fun d hd =>
    (doWithRetry_backoff plainGo unavailable 0 probeRequest 3).2 2 d (by decide) (by decide) hd⟩

theorem hexVal_hexDigit : ∀ n, n < 16 → hexVal (hexDigit n) = some n := by decide

theorem char_eq_of_toNat (c : Char) (n : Nat) (h : c.toNat = n) : c = Char.ofNat n := by
  rw [← h, Char.ofNat_toNat]

theorem getu4_low (n : Nat) (h : n < 256) :
    getu4 '0' '0' (hexDigit (n / 16)) (hexDigit (n % 16)) = some n := by
  unfold getu4
  rw [hexVal_hexDigit (n / 16) (by omega), hexVal_hexDigit (n % 16) (Nat.mod_lt _ (by norm_num))]
  have h0 : hexVal '0' = some 0 := by decide
  simp only [h0]
  congr 1
  omega

theorem parseStringBody_escape (c : Char) (fuel : Nat) (rest acc : List Char) :
    parseStringBody (fuel + 1) (jsonEscape c ++ rest) acc =
      parseStringBody fuel rest (acc ++ [c]) := by
  unfold jsonEscape
  simp only
  split_ifs with h1 h2 h3 h4 h5 h6 h7 h8
  · rcases h1 with rfl | rfl <;> simp [parseStringBody, unescape, quoteChar, backslashChar]
  · obtain rfl := char_eq_of_toNat c 8 h2
    simp [parseStringBody, unescape, quoteChar, backslashChar]
  · obtain rfl := char_eq_of_toNat c 12 h3
    simp [parseStringBody, unescape, quoteChar, backslashChar]
  · obtain rfl := char_eq_of_toNat c 10 h4
    simp [parseStringBody, unescape, quoteChar, backslashChar]
  · obtain rfl := char_eq_of_toNat c 13 h5
    simp [parseStringBody, unescape, quoteChar, backslashChar]
  · obtain rfl := char_eq_of_toNat c 9 h6
    simp [parseStringBody, unescape, quoteChar, backslashChar]
  · have hn : c.toNat < 256 := by
      rcases h7 with h | rfl | rfl | rfl
      · omega
      all_goals decide
    have hq : backslashChar ≠ quoteChar := by decide
    have hs : ¬ (0xd800 ≤ c.toNat ∧ c.toNat < 0xe000) := by omega
    have e : [backslashChar, 'u', '0', '0', hexDigit (c.toNat / 16), hexDigit (c.toNat % 16)] ++ rest
        = backslashChar :: 'u' :: '0' :: '0' :: hexDigit (c.toNat / 16) ::
          hexDigit (c.toNat % 16) :: rest := rfl
    rw [e, parseStringBody]
    simp only [hq, if_false, if_true, getu4_low c.toNat hn, hs, Char.ofNat_toNat]
  · have hc : c = Char.ofNat 0x2028 ∨ c = Char.ofNat 0x2029 := by
      rcases h8 with h | h
      · exact Or.inl (char_eq_of_toNat c _ h)
      · exact Or.inr (char_eq_of_toNat c _ h)
    rcases hc with rfl | rfl <;>
      simp [parseStringBody, quoteChar, backslashChar, getu4, hexVal, hexDigit]
  · have hq : c ≠ quoteChar := fun h => h1 (Or.inl h)
    have hb : c ≠ backslashChar := fun h => h1 (Or.inr h)
    have h20 : ¬ c.toNat < 0x20 := fun h => h7 (Or.inl h)
    have e : [c] ++ rest = c :: rest := rfl
    rw [e]
    simp only [parseStringBody, hq, hb, h20, if_false]

theorem parseStringBody_escapeAll (s : List Char) (fuel : Nat) (rest acc : List Char)
    (hfuel : s.length < fuel) :
    parseStringBody fuel (s.flatMap jsonEscape ++ quoteChar :: rest) acc =
      some (acc ++ s, rest) := by
  induction s generalizing fuel acc with
  | nil =>
    obtain ⟨f, rfl⟩ : ∃ f, fuel = f + 1 := ⟨fuel - 1, by simp at hfuel; omega⟩
    simp [parseStringBody]
  | cons c s ih =>
    obtain ⟨f, rfl⟩ : ∃ f, fuel = f + 1 := ⟨fuel - 1, by omega⟩
    rw [List.flatMap_cons, List.append_assoc, parseStringBody_escape,
      ih f (acc ++ [c]) (by simpa using hfuel)]
    simp



theorem jsonEscape_length_pos (c : Char) : 1 ≤ (jsonEscape c).length := by
  unfold jsonEscape
  simp only
  split_ifs <;> simp

theorem length_le_escapeAll (s : List Char) : s.length ≤ (s.flatMap jsonEscape).length := by
  induction s with
  | nil => simp
  | cons c s ih =>
    have := jsonEscape_length_pos c
    simp only [List.flatMap_cons, List.length_cons, List.length_append]
    omega

theorem jsonMarshalString_append (v : String) (rest : List Char) :
    jsonMarshalString v ++ rest = quoteChar :: (v.toList.flatMap jsonEscape ++ quoteChar :: rest) := by
  simp [jsonMarshalString]

theorem parseStringBody_marshal (v : String) (rest : List Char) :
    parseStringBody (v.toList.flatMap jsonEscape ++ quoteChar :: rest).length
      (v.toList.flatMap jsonEscape ++ quoteChar :: rest) [] = some (v.toList, rest) := by
  have := parseStringBody_escapeAll v.toList
    (v.toList.flatMap jsonEscape ++ quoteChar :: rest).length rest []
    (by have := length_le_escapeAll v.toList
        simp only [List.length_append, List.length_cons]
        omega)
  simpa using this

theorem parseValue_string (v : String) (fuel : Nat) (rest : List Char) :
    parseValue (fuel + 1) (jsonMarshalString v ++ rest) = some (.string v, rest) := by
  rw [jsonMarshalString_append, parseValue]
  have hsp : skipSpace (quoteChar :: (v.toList.flatMap jsonEscape ++ quoteChar :: rest)) =
      quoteChar :: (v.toList.flatMap jsonEscape ++ quoteChar :: rest) := by
    simp [skipSpace, isJsonSpace, quoteChar]
  rw [hsp]
  have h1 : quoteChar ≠ openBrace := by decide
  have h2 : quoteChar ≠ '[' := by decide
  simp only [h1, h2, if_false, if_true, parseStringBody_marshal, Option.map_some']
  rfl

theorem parseMembers_comma (pv : List Char → Option (Json × List Char)) (n : Nat)
    (k v : String) (rest : List Char) (acc : List (String × Json))
    (hpv : ∀ r, pv (jsonMarshalString v ++ r) = some (.string v, r))
    (hrest : skipSpace rest = rest) (hn : 0 < n) :
    parseMembers pv n (jsonMarshalString k ++ ':' :: (jsonMarshalString v ++ ',' :: rest)) acc
      = parseMembers pv (n - 1) rest (acc ++ [(k, .string v)]) := by
  obtain ⟨n, rfl⟩ : ∃ n', n = n' + 1 := ⟨n - 1, by omega⟩
  rw [jsonMarshalString_append, parseMembers, Nat.add_sub_cancel]
  have hsp : ∀ r, skipSpace (':' :: r) = ':' :: r := fun r => by simp [skipSpace, isJsonSpace]
  have hsp2 : ∀ r, skipSpace (',' :: r) = ',' :: r := fun r => by simp [skipSpace, isJsonSpace]
  simp only [if_true, parseStringBody_marshal, hsp, hpv, hsp2, hrest]
  rfl

theorem parseMembers_close (pv : List Char → Option (Json × List Char)) (n : Nat)
    (k v : String) (rest : List Char) (acc : List (String × Json))
    (hpv : ∀ r, pv (jsonMarshalString v ++ r) = some (.string v, r)) (hn : 0 < n) :
    parseMembers pv n
      (jsonMarshalString k ++ ':' :: (jsonMarshalString v ++ closeBrace :: rest)) acc
      = some (acc ++ [(k, .string v)], rest) := by
  obtain ⟨n, rfl⟩ : ∃ n', n = n' + 1 := ⟨n - 1, by omega⟩
  rw [jsonMarshalString_append, parseMembers]
  have hsp : ∀ r, skipSpace (':' :: r) = ':' :: r := fun r => by simp [skipSpace, isJsonSpace]
  have hsp2 : ∀ r, skipSpace (closeBrace :: r) = closeBrace :: r :=
    fun r => by simp [skipSpace, isJsonSpace, closeBrace]
  have hc : closeBrace ≠ ',' := by decide
  simp only [if_true, parseStringBody_marshal, hsp, hpv, hsp2, hc, if_false]
  rfl

theorem jsonParse_marshalBody (b : CheckInRequestBody) :
    jsonParse (jsonMarshalBody b) = some (.object [("firstName", .string b.FirstName),
      ("lastName", .string b.LastName), ("recordLocator", .string b.RecordLocator)]) := by
  have hbody : jsonMarshalBody b = openBrace :: (jsonMarshalString "firstName" ++ ':' ::
      (jsonMarshalString b.FirstName ++ ',' :: (jsonMarshalString "lastName" ++ ':' ::
      (jsonMarshalString b.LastName ++ ',' :: (jsonMarshalString "recordLocator" ++ ':' ::
      (jsonMarshalString b.RecordLocator ++ closeBrace :: [])))))) := by
    simp [jsonMarshalBody, List.append_assoc]
  have hq : ∀ (k : String) (r : List Char), skipSpace (jsonMarshalString k ++ r) =
      jsonMarshalString k ++ r := fun k r => by
    rw [jsonMarshalString_append]
    simp [skipSpace, isJsonSpace, quoteChar]
  unfold jsonParse
  rw [hbody, parseValue]
  have hsp : ∀ r, skipSpace (openBrace :: r) = openBrace :: r :=
    fun r => by simp [skipSpace, isJsonSpace, openBrace]
  rw [hsp]
  have hdepth : maxNestingDepth ≠ 0 := by decide
  simp only [if_true, hq, hdepth, if_false]
  rw [jsonMarshalString_append "firstName"]
  have hne : quoteChar ≠ closeBrace := by decide
  simp only [hne, if_false]
  rw [← jsonMarshalString_append "firstName"]
  have hlen : 3 ≤ (jsonMarshalString "firstName" ++ ':' ::
      (jsonMarshalString b.FirstName ++ ',' :: (jsonMarshalString "lastName" ++ ':' ::
      (jsonMarshalString b.LastName ++ ',' :: (jsonMarshalString "recordLocator" ++ ':' ::
      (jsonMarshalString b.RecordLocator ++ closeBrace :: [])))))).length := by
    simp only [List.length_append, List.length_cons]
    omega
  have hpv : ∀ (v : String) (r : List Char), parseValue maxNestingDepth
      (jsonMarshalString v ++ r) = some (.string v, r) := fun v r => parseValue_string v 9999 r
  rw [parseMembers_comma _ _ _ _ _ _ (hpv _) (hq _ _) (by omega),
    parseMembers_comma _ _ _ _ _ _ (hpv _) (hq _ _) (by omega),
    parseMembers_close _ _ _ _ _ _ (hpv _) (by omega)]
  rfl

theorem jsonUnmarshal_marshalBody (b : CheckInRequestBody) :
    jsonUnmarshal CheckInRequestBody.setField
      { FirstName := "", LastName := "", RecordLocator := "" } (jsonMarshalBody b) = .ok b := by
  unfold jsonUnmarshal
  rw [jsonParse_marshalBody]
  have h1 : keyIs "firstName" "firstName" = true := by decide
  have h2 : keyIs "lastName" "firstName" = false := by decide
  have h3 : keyIs "lastName" "lastName" = true := by decide
  have h4 : keyIs "recordLocator" "firstName" = false := by decide
  have h5 : keyIs "recordLocator" "lastName" = false := by decide
  have h6 : keyIs "recordLocator" "recordLocator" = true := by decide
  simp [decodeStruct, CheckInRequestBody.setField, h1, h2, h3, h4, h5, h6, decodeString,
    Except.bind, Except.map]



theorem checkInRequest_ok (lib : GoLib) (lookup : ReservationLookupResponse) (req : Request)
    (h : checkInRequest lib lookup = .ok req) :
    req.Method = (if lookup.CheckInViewReservationPage.Links.CheckIn.Method = "" then "GET"
      else lookup.CheckInViewReservationPage.Links.CheckIn.Method) ∧
    lib.requestURL
      ("https://mobile.southwest.com" ++ lookup.CheckInViewReservationPage.Links.CheckIn.Href) =
        .ok req.URL ∧
    req.Body = some (jsonMarshalBody lookup.CheckInViewReservationPage.Links.CheckIn.Body) := by
  unfold checkInRequest at h
  simp only at h
  cases hnew : NewRequest lib lookup.CheckInViewReservationPage.Links.CheckIn.Method
      ("https://mobile.southwest.com" ++ lookup.CheckInViewReservationPage.Links.CheckIn.Href)
      (some (jsonMarshalBody lookup.CheckInViewReservationPage.Links.CheckIn.Body)) with
  | error err => rw [hnew] at h; cases h
  | ok r =>
    rw [hnew] at h
    simp only [Except.ok.injEq] at h
    subst h
    obtain ⟨h1, -, h2, h3⟩ := NewRequest_ok lib _ _ _ r hnew
    exact ⟨h1, h2, h3⟩

/-- C5 (counterexample): for the resolved record whose check-in link has href
/x, the body A, B, C and an empty method, the Act request built has method
GET, not the (empty) method of the descriptor. -/
theorem empty_method_becomes_GET :
    (checkInRequest plainGo methodlessLookup).toOption.map (fun req => req.Method) = some "GET" ∧
    methodlessLookup.CheckInViewReservationPage.Links.CheckIn.Method = "" := by
  refine ⟨by decide!, rfl⟩

/-- C5 (amended): the Act request built by `performCheckIn` from a descriptor
with method M, href H and body b has method M, or GET when M is empty; its URL
is the one `http.NewRequest` reads from the text "https://mobile.southwest.com"
followed by H, which is that text itself when the text is a plain URL (for
other texts the library decides whether a request is built and how its URL is
printed); its body is the JSON encoding of b, which decodes back to b; and it is
the first request `performCheckIn` submits. -/
theorem checkInRequest_descriptor (lib : GoLib) (lookup : ReservationLookupResponse) (req : Request)
    (h : checkInRequest lib lookup = .ok req) :
    req.Method = (if lookup.CheckInViewReservationPage.Links.CheckIn.Method = "" then "GET"
      else lookup.CheckInViewReservationPage.Links.CheckIn.Method) ∧
    lib.requestURL
      ("https://mobile.southwest.com" ++ lookup.CheckInViewReservationPage.Links.CheckIn.Href) =
        .ok req.URL ∧
    (plainURL
      ("https://mobile.southwest.com" ++ lookup.CheckInViewReservationPage.Links.CheckIn.Href) = true →
      req.URL =
        "https://mobile.southwest.com" ++ lookup.CheckInViewReservationPage.Links.CheckIn.Href) ∧
    req.Body = some (jsonMarshalBody lookup.CheckInViewReservationPage.Links.CheckIn.Body) ∧
    jsonUnmarshal CheckInRequestBody.setField
      { FirstName := "", LastName := "", RecordLocator := "" }
      (jsonMarshalBody lookup.CheckInViewReservationPage.Links.CheckIn.Body) =
        .ok lookup.CheckInViewReservationPage.Links.CheckIn.Body ∧
    ∀ (c : Client) (calls : Nat),
      (exchanges (performCheckIn lib c calls lookup).2).head? = some (req, c.httpClient calls req) := by
  obtain ⟨h1, h2, h3⟩ := checkInRequest_ok lib lookup req h
  refine ⟨h1, h2, fun hp => ?_, h3, jsonUnmarshal_marshalBody _, fun c calls => ?_⟩
  · have hu := lib.requestURL_plain _ hp
    rw [h2] at hu
    exact Except.ok.inj hu
  · rw [performCheckIn_events lib c calls lookup req h]
    obtain ⟨rest, hrest⟩ := doWithRetry_cons lib c calls req 3 (by decide)
    rw [hrest]
    rfl

/-- Witness for C5 (amended): the descriptor POST /x with body A, B, C. -/
theorem checkInRequest_descriptor_witness :
    ∃ req, checkInRequest plainGo sampleLookup = .ok req ∧ req.Method = "POST" ∧
      req.URL = "https://mobile.southwest.com/x" ∧
      req.Body = some "\x7b\"firstName\":\"A\",\"lastName\":\"B\",\"recordLocator\":\"C\"\x7d".toList := by
  obtain ⟨req, hreq⟩ : ∃ req, checkInRequest plainGo sampleLookup = .ok req := ⟨_, rfl⟩
  obtain ⟨h1, -, h2, h3, -, -⟩ := checkInRequest_descriptor plainGo sampleLookup req hreq
  exact ⟨req, hreq, h1, h2 (by decide), by rw [h3]; decide!⟩

theorem checkInRequest_zero (lib : GoLib) (lookup : ReservationLookupResponse)
    (hempty : lookup.CheckInViewReservationPage.Links.CheckIn =
      { Href := "", Method := "", Body := { FirstName := "", LastName := "", RecordLocator := "" } }) :
    checkInRequest lib lookup = .ok emptyActRequest := by
  have hu : lib.requestURL ("https://mobile.southwest.com" ++ "") =
      .ok "https://mobile.southwest.com" :=
    lib.requestURL_plain "https://mobile.southwest.com" (by decide)
  unfold checkInRequest NewRequest
  rw [hempty]
  simp only [hu]
  decide!

/-- C4 (counterexample): the Resolve response 200 with body `{}` decodes to a
record with an empty check-in link; `CheckIn` then submits an Act request (GET
to the bare host with the body of three empty strings) and, the server
answering 200 `{}` again, returns no error. -/
theorem empty_descriptor_reaches_act_phase :
    (lookupReservation plainGo emptyObjectServer 0 sampleReservation).1 = .ok .zero ∧
    (CheckIn plainGo emptyObjectServer 0 sampleReservation).1 = .ok [] ∧
    ((exchanges (CheckIn plainGo emptyObjectServer 0 sampleReservation).2).map fun x => x.1)[1]? =
      some emptyActRequest := by
  refine ⟨by decide!, by decide!, by decide!⟩

/-- C4 (amended): when the Resolve phase succeeds with a record whose check-in
link is empty (empty href, empty method, empty body), `CheckIn` does not reject
it: the first request after the Resolve exchanges is the Act request GET
https://mobile.southwest.com with the JSON body of three empty strings, and
`CheckIn` returns the boarding passes whenever that Act phase succeeds. -/
theorem CheckIn_empty_descriptor (lib : GoLib) (c : Client) (calls : Nat) (reservation : Reservation)
    (lookup : ReservationLookupResponse)
    (hres : (lookupReservation lib c calls reservation).1 = .ok lookup)
    (hempty : lookup.CheckInViewReservationPage.Links.CheckIn =
      { Href := "", Method := "", Body := { FirstName := "", LastName := "", RecordLocator := "" } }) :
    (exchanges (CheckIn lib c calls reservation).2)[
        (exchanges (lookupReservation lib c calls reservation).2).length]? =
      some (emptyActRequest,
        c.httpClient (calls + (exchanges (lookupReservation lib c calls reservation).2).length)
          emptyActRequest) ∧
    ∀ confirm,
      (performCheckIn lib c (calls + (exchanges (lookupReservation lib c calls reservation).2).length)
        lookup).1 = .ok confirm →
      (CheckIn lib c calls reservation).1 = .ok (extractBoardingPasses confirm) := by
  obtain ⟨hev, hok⟩ := CheckIn_of_resolved lib c calls reservation lookup hres
  refine ⟨?_, hok⟩
  rw [hev, performCheckIn_events lib c _ lookup emptyActRequest (checkInRequest_zero lib lookup hempty)]
  obtain ⟨rest, hrest⟩ := doWithRetry_cons lib c
    (calls + (exchanges (lookupReservation lib c calls reservation).2).length) emptyActRequest 3
    (by decide)
  rw [hrest, exchanges_append, List.getElem?_append_right (Nat.le_refl _), Nat.sub_self]
  simp [exchanges]

/-- Witness for C4 (amended): the server that answers 200 `{}` to everything. -/
theorem CheckIn_empty_descriptor_witness :
    (exchanges (CheckIn plainGo emptyObjectServer 0 sampleReservation).2)[
        (exchanges (lookupReservation plainGo emptyObjectServer 0 sampleReservation).2).length]? =
      some (emptyActRequest, emptyObjectServer.httpClient
        (0 + (exchanges (lookupReservation plainGo emptyObjectServer 0 sampleReservation).2).length)
        emptyActRequest) :=
  (CheckIn_empty_descriptor plainGo emptyObjectServer 0 sampleReservation .zero (by decide!) rfl).1

end SouthwestBot
